import Mathlib

/-!
StateControl: a boolean-array state tracker

A shallow embedding of `src/state_control.cpp` / `src/state_control.h`.

Conventions of the embedding:

* `uint8_t` values are natural numbers below 256, `int8_t` values are integers in
  `[-128, 127]`; every conversion the C++ performs implicitly is written out
  (`toUInt8`, `toInt8`).
* A `bool*` buffer is `Option (List Bool)`: `none` is `nullptr`, `some l` is a live
  allocation holding `l.length` cells.
* `new` may fail (it yields `nullptr` on the target); the outcome of every allocation is
  an explicit Boolean argument.
* A counted loop `for (uint8_t i = 0; i < n; i++)` is `forLoop body 0 n`.
* The value of a read outside the allocation is not determined by the program; it is an
  explicit argument (`oob`).
-/

namespace StateControl

/-! ## Machine integers -/

/-- Conversion of an integer value to `uint8_t` (reduction modulo 256). -/
def toUInt8 (n : Int) : Nat := (n % 256).toNat

/-- Conversion of an integer value to `int8_t` (two's complement, as done by avr-gcc). -/
def toInt8 (n : Int) : Int := (n + 128) % 256 - 128

/-- The Arduino `min(a,b)` function-like definition: `((a)<(b)?(a):(b))`, on promoted `int`s. -/
def arduinoMin (a b : Int) : Int := if a < b then a else b

/-! ## Loops -/

/-- Counted loop: `forLoop body i n s` runs `body i`, `body (i+1)`, ..., `body (i+n-1)`
in this order, threading the state. `for (uint8_t i = 0; i < n; i++) body` is
`forLoop body 0 n`. -/
def forLoop {σ : Type} (body : Nat → σ → σ) : Nat → Nat → σ → σ
  | _, 0, s => s
  | i, n + 1, s => forLoop body (i + 1) n (body i s)

/-- Scanning loop with early exit, shared by `getFirstTrueIndex` and `findState`:
`for (uint8_t i = ...; i < ...; i++) if (array[i] == state) return i;  return -1;`
The result is returned as `int8_t`. -/
def scanLoop (arr : List Bool) (state : Bool) : Nat → Nat → Int
  | _, 0 => -1
  | i, n + 1 => if arr.getD i false = state then toInt8 i else scanLoop arr state (i + 1) n

/-- The loop of `setRangeStates`, `for (uint8_t i = start; i <= end; i++)`, with its 8-bit
counter: the increment wraps modulo 256. The loop state is the flag array and `trueIndex`.
`none` means that the fuel did not suffice. -/
def rangeLoop (state : Bool) (stop : Nat) : Nat → Nat → List Bool × Int → Option (List Bool × Int)
  | 0, _, _ => none
  | fuel + 1, i, st =>
    if i ≤ stop then
      rangeLoop state stop fuel ((i + 1) % 256)
        (st.1.set i state, if state && decide (st.2 = -1) then toInt8 i else st.2)
    else some st

/-- Read of `array[idx]` for a signed index. Inside the allocation it is the stored flag;
outside it the value is whatever lies in memory there, given as `oob`. -/
def readAt (arr : List Bool) (oob : Bool) (idx : Int) : Bool :=
  if 0 ≤ idx ∧ idx < arr.length then arr.getD idx.toNat false else oob

end StateControl

/-- The private fields of `class StateControl`. -/
structure StateControl where
  /-- Field `bool* array`. -/
  array : Option (List Bool)
  /-- Field `uint8_t def_size`. -/
  def_size : Nat
  /-- Field `int8_t trueIndex`. -/
  trueIndex : Int
  /-- Field `bool* savedState`. -/
  savedState : Option (List Bool)
  /-- Field `int8_t savedTrueIndex`. -/
  savedTrueIndex : Int
  deriving DecidableEq, Repr

namespace StateControl

/-- Constructor `StateControl::StateControl(uint8_t size)`. The argument expression `n` is
bound to the `uint8_t` parameter; `allocArray` and `allocSaved` tell whether the two
`new bool[def_size]()` succeed. -/
def construct (n : Int) (allocArray allocSaved : Bool) : StateControl :=
  let size := toUInt8 n
  let def_size := if size > 0 then size else 1
  let def_size := if def_size > 254 then 254 else def_size
  if !allocArray then
    { array := none, def_size := 0, trueIndex := -1, savedState := none, savedTrueIndex := -1 }
  else if !allocSaved then
    { array := none, def_size := 0, trueIndex := -1, savedState := none, savedTrueIndex := -1 }
  else
    { array := some (List.replicate def_size false), def_size := def_size, trueIndex := -1,
      savedState := some (List.replicate def_size false), savedTrueIndex := -1 }

/-- Method `isValidIndex`: `array && index < def_size`. -/
def isValidIndex (s : StateControl) (index : Nat) : Bool :=
  s.array.isSome && decide (index < s.def_size)

/-- Method `clearOthers`. -/
def clearOthers (s : StateControl) (index : Nat) : StateControl :=
  match s.array with
  | none => s
  | some arr =>
    if s.def_size = 0 then s
    else
      { s with array := some (forLoop (fun i a => if i ≠ index then a.set i false else a)
                                0 s.def_size arr) }

/-- Method `setState(uint8_t index, bool exclusive)`. -/
def setState (s : StateControl) (index : Nat) (exclusive : Bool) : StateControl :=
  if !s.isValidIndex index then s
  else
    match s.array with
    | none => s
    | some arr =>
      let s1 := { s with array := some (arr.set index true), trueIndex := toInt8 index }
      if exclusive then s1.clearOthers index else s1

/-- Method `setState(uint8_t index, bool state, bool exclusive)`. -/
def setStateValue (s : StateControl) (index : Nat) (state exclusive : Bool) : StateControl :=
  if !s.isValidIndex index then s
  else
    match s.array with
    | none => s
    | some arr =>
      let s1 := { s with array := some (arr.set index state) }
      if state then
        let s2 := { s1 with trueIndex := toInt8 index }
        if exclusive then s2.clearOthers index else s2
      else if (index : Int) = s1.trueIndex then { s1 with trueIndex := -1 }
      else s1

/-- Method `saveState`. -/
def saveState (s : StateControl) : StateControl :=
  match s.array, s.savedState with
  | some arr, some saved =>
    if s.def_size = 0 then s
    else
      { s with
        savedState := some (forLoop (fun i sv => sv.set i (arr.getD i false)) 0 s.def_size saved),
        savedTrueIndex := s.trueIndex }
  | _, _ => s

/-- Method `restoreSavedState`. -/
def restoreSavedState (s : StateControl) : StateControl :=
  match s.array, s.savedState with
  | some arr, some saved =>
    if s.def_size = 0 then s
    else
      { s with
        array := some (forLoop (fun i a => a.set i (saved.getD i false)) 0 s.def_size arr),
        trueIndex := s.savedTrueIndex }
  | _, _ => s

/-- Method `toggleState`. -/
def toggleState (s : StateControl) (index : Nat) : StateControl :=
  if !s.isValidIndex index then s
  else
    match s.array with
    | none => s
    | some arr =>
      let arr1 := arr.set index (!arr.getD index false)
      let s1 := { s with array := some arr1 }
      if arr1.getD index false then
        ({ s1 with trueIndex := toInt8 index }).clearOthers index
      else if (index : Int) = s1.trueIndex then { s1 with trueIndex := -1 }
      else s1

/-- Method `resetArray`. -/
def resetArray (s : StateControl) : StateControl :=
  match s.array with
  | none => s
  | some arr =>
    if s.def_size = 0 then s
    else
      { s with array := some (forLoop (fun i a => a.set i false) 0 s.def_size arr),
               trueIndex := -1 }

/-- Method `setAllStates`. -/
def setAllStates (s : StateControl) (state : Bool) : StateControl :=
  match s.array with
  | none => s
  | some arr =>
    if s.def_size = 0 then s
    else
      { s with array := some (forLoop (fun i a => a.set i state) 0 s.def_size arr),
               trueIndex := if state then 0 else -1 }

/-- Method `setDefaultIndex`. -/
def setDefaultIndex (s : StateControl) : StateControl :=
  match s.array with
  | none => s
  | some arr =>
    if s.def_size = 0 then s
    else
      { s with array := some (forLoop (fun i a => a.set i (decide (i = 0))) 0 s.def_size arr),
               trueIndex := 0 }

/-- Method `getState`. -/
def getState (s : StateControl) (index : Nat) : Bool :=
  if s.isValidIndex index then
    match s.array with
    | none => false
    | some arr => arr.getD index false
  else false

/-- Method `getFirstTrueIndex`. -/
def getFirstTrueIndex (s : StateControl) : Int :=
  match s.array with
  | none => -1
  | some arr => scanLoop arr true 0 s.def_size

/-- Method `countTrueStates`; the counter is a `uint8_t`. -/
def countTrueStates (s : StateControl) : Nat :=
  match s.array with
  | none => 0
  | some arr =>
    if s.def_size = 0 then 0
    else forLoop (fun i count => if arr.getD i false then (count + 1) % 256 else count)
           0 s.def_size 0

/-- Method `getAllTrueIndices(uint8_t& count)`: the returned buffer (`none` is `nullptr`) and
the value left in `count`. `allocOk` tells whether `new uint8_t[count]` succeeds; the fresh
buffer is modelled zero-filled, and the loop state is the buffer with the cursor `pos`. -/
def getAllTrueIndices (s : StateControl) (allocOk : Bool) : Option (List Nat) × Nat :=
  match s.array with
  | none => (none, 0)
  | some arr =>
    if s.def_size = 0 then (none, 0)
    else
      let count := s.countTrueStates
      if count = 0 then (none, count)
      else if !allocOk then (none, 0)
      else
        let r := forLoop
          (fun i (st : List Nat × Nat) =>
            if arr.getD i false then (st.1.set st.2 i, (st.2 + 1) % 256) else st)
          0 s.def_size (List.replicate count 0, 0)
        (some r.1, count)

/-- Method `getIndex()`. -/
def getIndex (s : StateControl) : Int := s.trueIndex

/-- Method `findState`. -/
def findState (s : StateControl) (state : Bool) : Int :=
  match s.array with
  | none => -1
  | some arr => scanLoop arr state 0 s.def_size

/-- Method `serializeStatesSize`: `def_size + 1` returned as `uint8_t`. -/
def serializeStatesSize (s : StateControl) : Nat := (s.def_size + 1) % 256

/-- Method `setRangeStates`, with the fuel of its loop explicit. -/
def setRangeStatesFuel (fuel : Nat) (s : StateControl) (start stop : Nat) (state : Bool) :
    Option StateControl :=
  match s.array with
  | none => some s
  | some _ =>
    if start ≥ s.def_size then some s
    else
      let stop1 := toUInt8 (arduinoMin stop ((s.def_size : Int) - 1))
      let s1 := s.resetArray
      match s1.array with
      | none => some s1
      | some arr1 =>
        match rangeLoop state stop1 fuel start (arr1, s1.trueIndex) with
        | none => none
        | some r => some { s1 with array := some r.1, trueIndex := r.2 }

/-- Method `setRangeStates`: 256 units of fuel always suffice (`setRangeStatesFuel_isSome`). -/
def setRangeStates (s : StateControl) (start stop : Nat) (state : Bool) : StateControl :=
  (setRangeStatesFuel 256 s start stop state).getD s

/-- Method `isAssignedIndex`. -/
def isAssignedIndex (s : StateControl) : Bool := decide (s.getFirstTrueIndex ≠ -1)

/-- Method `invertStates`; `oob` is the value that the read `array[trueIndex]` yields when
`trueIndex` lies outside the allocation. -/
def invertStates (s : StateControl) (oob : Bool) : StateControl :=
  match s.array with
  | none => s
  | some arr =>
    if s.def_size = 0 then s
    else
      let arr1 := forLoop (fun i a => a.set i (!a.getD i false)) 0 s.def_size arr
      let s1 := { s with array := some arr1 }
      { s1 with trueIndex := if readAt arr1 oob s1.trueIndex then s1.trueIndex
                             else s1.findState true }

/-- Method `validateSingleState`. -/
def validateSingleState (s : StateControl) : Bool := decide (s.countTrueStates = 1)

/-- Method `copyStatesFrom`: the updated target and the returned flag. -/
def copyStatesFrom (s source : StateControl) : StateControl × Bool :=
  match s.array, source.array with
  | some arr, some src =>
    if s.def_size ≠ source.def_size then (s, false)
    else
      ({ s with array := some (forLoop (fun i a => a.set i (src.getD i false)) 0 s.def_size arr),
                trueIndex := source.trueIndex }, true)
  | _, _ => (s, false)

/-- The string terminator. -/
def nul : Char := Char.ofNat 0

/-- Method `serializeStates(char* buffer, uint8_t bufSize)`: the caller's buffer after the
call. The buffer is a live allocation (`nullptr` is not modelled: the source writes through
it when `bufSize > 0`). -/
def serializeStates (s : StateControl) (buffer : List Char) (bufSize : Nat) : List Char :=
  match s.array with
  | none => if bufSize > 0 then buffer.set 0 nul else buffer
  | some arr =>
    if s.def_size = 0 ∨ bufSize = 0 then
      if bufSize > 0 then buffer.set 0 nul else buffer
    else
      let len := toUInt8 (arduinoMin s.def_size ((bufSize : Int) - 1))
      let buffer1 := forLoop (fun i b => b.set i (if arr.getD i false then '1' else '0'))
                       0 len buffer
      buffer1.set len nul

/-- The C string held by a buffer: the characters before the first terminator. -/
def cString (buffer : List Char) : List Char := buffer.takeWhile (fun c => c ≠ nul)

/-! ## Call sequences -/

/-- One call of a mutating public method. -/
inductive Op where
  | setTrue (index : Nat) (exclusive : Bool)
  | setValue (index : Nat) (state exclusive : Bool)
  | toggle (index : Nat)
  | resetAll
  | setAll (state : Bool)
  | setDefault
  | setRange (start stop : Nat) (state : Bool)
  | invertAll (oob : Bool)
  | save
  | restore
  | copyFrom (source : StateControl)
  deriving DecidableEq, Repr

/-- Is the call `saveState()`? -/
def Op.isSave : Op → Bool
  | Op.save => true
  | _ => false

/-- Effect of one call on the tracker. -/
def step (s : StateControl) : Op → StateControl
  | Op.setTrue index exclusive => s.setState index exclusive
  | Op.setValue index state exclusive => s.setStateValue index state exclusive
  | Op.toggle index => s.toggleState index
  | Op.resetAll => s.resetArray
  | Op.setAll state => s.setAllStates state
  | Op.setDefault => s.setDefaultIndex
  | Op.setRange start stop state => s.setRangeStates start stop state
  | Op.invertAll oob => s.invertStates oob
  | Op.save => s.saveState
  | Op.restore => s.restoreSavedState
  | Op.copyFrom source => (s.copyStatesFrom source).1

/-- Effect of a sequence of calls, first call first. -/
def run (s : StateControl) (ops : List Op) : StateControl := ops.foldl step s

/-- Well-formed tracker: either disabled (both buffers null, `def_size == 0`), or both
buffers live with `def_size` cells each and `1 ≤ def_size ≤ 254`; the two indices are
`int8_t` values. This is what the constructor establishes for the buffers. -/
def WF (s : StateControl) : Prop :=
  ((s.array = none ∧ s.savedState = none ∧ s.def_size = 0) ∨
   (∃ arr saved, s.array = some arr ∧ s.savedState = some saved ∧
      arr.length = s.def_size ∧ saved.length = s.def_size ∧
      1 ≤ s.def_size ∧ s.def_size ≤ 254)) ∧
  (-128 ≤ s.trueIndex ∧ s.trueIndex ≤ 127) ∧
  (-128 ≤ s.savedTrueIndex ∧ s.savedTrueIndex ≤ 127)

/-- The flag sequence (empty for a disabled tracker). -/
def flags (s : StateControl) : List Bool := s.array.getD []


/-- What every call other than `saveState()` leaves alone: the snapshot, the capacity, and
whether the flag array is live and how many cells it has. -/
def SameFrame (s t : StateControl) : Prop :=
  t.savedState = s.savedState ∧ t.savedTrueIndex = s.savedTrueIndex ∧
  t.def_size = s.def_size ∧ t.array.map List.length = s.array.map List.length

/-- States reachable from construction by calls of the public mutating methods; the source
of a `copyStatesFrom` call is itself reachable. -/
inductive Reachable : StateControl → Prop where
  | init (n : Int) (allocArray allocSaved : Bool) :
      Reachable (construct n allocArray allocSaved)
  | call (s : StateControl) (op : Op) (hs : Reachable s)
      (hsrc : ∀ source, op = Op.copyFrom source → Reachable source) :
      Reachable (step s op)

/-- The cached indices are not stale: when `trueIndex` lies in `[0, def_size)` the flag there
is true, and likewise for `savedTrueIndex` and the saved flags. -/
def NotStale (s : StateControl) : Prop :=
  (∀ i : Nat, s.trueIndex = (i : Int) → i < s.def_size → s.getState i = true) ∧
  (∀ i : Nat, s.savedTrueIndex = (i : Int) → i < s.def_size →
    (s.savedState.getD []).getD i false = true)

/-- The indices at which `invertStates` accesses `array`, in program order: the cell `i`
read and written by each round of the loop, then the lookup `array[trueIndex]`. -/
def invertStatesAccesses (s : StateControl) : List Int :=
  match s.array with
  | none => []
  | some _ =>
    if s.def_size = 0 then []
    else forLoop (fun i acc => acc ++ [(i : Int)]) 0 s.def_size [] ++ [s.trueIndex]

/-- The loop of `setRangeStates` with the same counter and fuel as `rangeLoop`, recording the
counter value of every round, which is the index written by `array[i] = state`. -/
def rangeLoopWrites (stop : Nat) : Nat → Nat → List Nat → Option (List Nat)
  | 0, _, _ => none
  | fuel + 1, i, w =>
    if i ≤ stop then rangeLoopWrites stop fuel ((i + 1) % 256) (w ++ [i])
    else some w

/-- The indices written by `setRangeStates` in program order: the cells cleared by
`resetArray()`, then the cells stored by the range loop. `none` means that the fuel did not
suffice. -/
def setRangeStatesWrites (fuel : Nat) (s : StateControl) (start stop : Nat) :
    Option (List Nat) :=
  match s.array with
  | none => some []
  | some _ =>
    if start ≥ s.def_size then some []
    else
      let stop1 := toUInt8 (arduinoMin stop ((s.def_size : Int) - 1))
      rangeLoopWrites stop1 fuel start (forLoop (fun i acc => acc ++ [i]) 0 s.def_size [])

set_option maxRecDepth 100000

/-! ## Loop lemmas -/

theorem forLoop_succ {σ : Type} (body : Nat → σ → σ) (i n : Nat) (s : σ) :
    forLoop body i (n + 1) s = forLoop body (i + 1) n (body i s) := rfl

theorem getD_set_eq_ite {α : Type} (a : List α) (k j : Nat) (v d : α) :
    (a.set k v).getD j d = if k = j ∧ j < a.length then v else a.getD j d := by
  simp only [List.getD_eq_getElem?_getD, List.getElem?_set]
  by_cases h : k = j
  · subst h
    by_cases hk : k < a.length
    · simp [hk]
    · have hn : a[k]? = none := List.getElem?_eq_none (by omega)
      simp [hk, hn]
  · simp [h]

/-- Lists of equal length with equal cells are equal. -/
theorem list_ext_getD {α : Type} (d : α) (a b : List α) (hlen : a.length = b.length)
    (h : ∀ j, j < a.length → a.getD j d = b.getD j d) : a = b := by
  apply List.ext_getElem hlen
  intro j h1 h2
  have := h j h1
  simpa [List.getD_eq_getElem?_getD, List.getElem?_eq_getElem h1, List.getElem?_eq_getElem h2]
    using this

/-- A loop whose body only stores into the array keeps its length. -/
theorem forLoop_length {α : Type} (body : Nat → List α → List α)
    (hbody : ∀ i a, (body i a).length = a.length) (k n : Nat) (a : List α) :
    (forLoop body k n a).length = a.length := by
  induction n generalizing k a with
  | zero => rfl
  | succ n ih => rw [forLoop_succ, ih, hbody]

/-- A loop whose body rewrites cell `i` from its old content: cell `j` of the result. -/
theorem forLoop_getD {α : Type} (d : α) (f : Nat → α → α) (body : Nat → List α → List α)
    (hbody : ∀ i a, body i a = a.set i (f i (a.getD i d))) (k n : Nat) (a : List α) (j : Nat) :
    (forLoop body k n a).getD j d =
      if k ≤ j ∧ j < k + n ∧ j < a.length then f j (a.getD j d) else a.getD j d := by
  induction n generalizing k a with
  | zero =>
    have h0 : ¬ (k ≤ j ∧ j < k + 0 ∧ j < a.length) := by omega
    simp only [forLoop, h0, if_false]
  | succ n ih =>
    rw [forLoop_succ, ih, hbody, getD_set_eq_ite, List.length_set]
    by_cases hkj : k = j
    · subst hkj
      by_cases hl : k < a.length
      · simp [hl]
      · simp [hl]
    · have h1 : (k + 1 ≤ j ∧ j < k + 1 + n ∧ j < a.length) ↔
          (k ≤ j ∧ j < k + (n + 1) ∧ j < a.length) := by omega
      simp only [hkj, false_and, if_false, h1]

/-- Copying loop (`saveState`, `restoreSavedState`, `copyStatesFrom`): with both buffers of
`n` cells the destination becomes the source. -/
theorem forLoop_copy (src a : List Bool) (n : Nat) (ha : a.length = n) (hs : src.length = n) :
    forLoop (fun i a => a.set i (src.getD i false)) 0 n a = src := by
  apply list_ext_getD false
  · rw [forLoop_length _ (fun i a => by simp), ha, hs]
  · intro j hj
    rw [forLoop_length _ (fun i a => by simp)] at hj
    rw [forLoop_getD false (fun i _ => src.getD i false) _ (fun i a => rfl)]
    have : 0 ≤ j ∧ j < 0 + n ∧ j < a.length := by omega
    simp only [this, and_self, if_true]

/-- The counting loop of `countTrueStates` over an array without a true flag. -/
theorem forLoop_count_allFalse (arr : List Bool) (h : ∀ i, arr.getD i false = false)
    (k n c : Nat) :
    forLoop (fun i count => if arr.getD i false then (count + 1) % 256 else count) k n c = c := by
  induction n generalizing k c with
  | zero => rfl
  | succ n ih =>
    rw [forLoop_succ, ih]
    simp only [h k, Bool.false_eq_true, if_false]

theorem getD_replicate_false (n i : Nat) : (List.replicate n false).getD i false = false := by
  simp only [List.getD_eq_getElem?_getD, List.getElem?_replicate]
  split <;> rfl

/-! ## Construction -/

/-- The two possible outcomes of construction. -/
theorem construct_cases (c : Int) (allocArray allocSaved : Bool) :
    construct c allocArray allocSaved =
        { array := none, def_size := 0, trueIndex := -1, savedState := none,
          savedTrueIndex := -1 } ∨
    ∃ n, 1 ≤ n ∧ n ≤ 254 ∧ construct c allocArray allocSaved =
        { array := some (List.replicate n false), def_size := n, trueIndex := -1,
          savedState := some (List.replicate n false), savedTrueIndex := -1 } := by
  cases allocArray
  · left; rfl
  · cases allocSaved
    · left; rfl
    · right
      refine ⟨_, ?_, ?_, rfl⟩ <;> dsimp only <;> split_ifs <;> omega

/-- C5. For every requested capacity (in particular every `c ≥ 1`) and whatever the outcome
of the two allocations, right after construction every flag reads false, `countTrueStates()`
is 0 and `getIndex()` is -1. -/
theorem C5_construct_all_false (c : Int) (allocArray allocSaved : Bool) :
    (∀ i, (construct c allocArray allocSaved).getState i = false) ∧
    (construct c allocArray allocSaved).countTrueStates = 0 ∧
    (construct c allocArray allocSaved).getIndex = -1 := by
  rcases construct_cases c allocArray allocSaved with h | ⟨n, _, _, h⟩
  · rw [h]
    exact ⟨fun i => rfl, rfl, rfl⟩
  · rw [h]
    refine ⟨fun i => ?_, ?_, rfl⟩
    · simp only [getState, getD_replicate_false, ite_self]
    · simp only [countTrueStates, forLoop_count_allFalse _ (getD_replicate_false n), ite_self]

/-- C6, as the code has it. For a requested capacity `n` in the range `0..255` of the
constructor's `uint8_t` parameter and both allocations succeeding, the capacity is 1 when
`n ≤ 0`, 254 when `n > 254` and `n` otherwise, and `serializeStatesSize()` is the capacity
plus one, at most 255 (no 8-bit overflow). When an allocation fails the capacity is 0. -/
theorem C6_construct_capacity (n : Int) (h0 : 0 ≤ n) (h255 : n ≤ 255) :
    (construct n true true).def_size = (if n ≤ 0 then 1 else if n > 254 then 254 else n.toNat) ∧
    (construct n true true).serializeStatesSize = (construct n true true).def_size + 1 ∧
    (construct n true true).serializeStatesSize ≤ 255 ∧
    (∀ a, (construct n false a).def_size = 0 ∧ (construct n a false).def_size = 0) := by
  have hsz : toUInt8 n = n.toNat := by
    unfold toUInt8
    rw [Int.emod_eq_of_lt h0 (by omega)]
  have hd : (construct n true true).def_size =
      (if n ≤ 0 then 1 else if n > 254 then 254 else n.toNat) := by
    simp only [construct, hsz, Bool.not_true, Bool.false_eq_true, if_false]
    split_ifs <;> omega
  refine ⟨hd, ?_, ?_, ?_⟩
  · rw [serializeStatesSize, hd]
    split_ifs <;> omega
  · rw [serializeStatesSize, hd]
    split_ifs <;> omega
  · intro a
    cases a <;> exact ⟨rfl, rfl⟩

/-- Witness of `C6_construct_capacity` at `n = 5`. -/
theorem C6_construct_capacity_witness :
    (construct 5 true true).def_size = (if (5 : Int) ≤ 0 then 1 else if (5 : Int) > 254 then 254
      else (5 : Int).toNat) ∧
    (construct 5 true true).serializeStatesSize = (construct 5 true true).def_size + 1 ∧
    (construct 5 true true).serializeStatesSize ≤ 255 ∧
    (∀ a, (construct 5 false a).def_size = 0 ∧ (construct 5 a false).def_size = 0) :=
  C6_construct_capacity 5 (by decide) (by decide)

/-- C6 fails as stated: the argument 300 is reduced to the `uint8_t` 44, so the capacity is
44 and not 254; the argument -1 becomes 255, so the capacity is 254 and not 1; and when an
allocation fails the capacity is 0 and not the requested 5. -/
theorem C6_counterexample :
    ((construct 300 true true).def_size = 44 ∧ (construct 300 true true).def_size ≠ 254) ∧
    ((construct (-1) true true).def_size = 254 ∧ (construct (-1) true true).def_size ≠ 1) ∧
    ((construct 5 false true).def_size = 0 ∧ (construct 5 false true).def_size ≠ 5) := by
  decide

/-! ## Indices above 127 -/

/-- C1 (defect in the code). On a tracker of capacity 254 the index 200 is valid; after
`setState(200, true)` the flag reads true and exactly one flag is true, but `getIndex()`
returns -56 instead of 200: `trueIndex` is an `int8_t`. -/
theorem C1_setState_index_200 :
    (construct 254 true true).isValidIndex 200 = true ∧
    ((construct 254 true true).setState 200 true).getState 200 = true ∧
    ((construct 254 true true).setState 200 true).countTrueStates = 1 ∧
    ((construct 254 true true).setState 200 true).getIndex = -56 ∧
    ((construct 254 true true).setState 200 true).getIndex ≠ 200 := by
  decide

/-- C2 (defect in the code). The state reached from construction with capacity 254 by the
single call `setState(200, true)` has `getIndex() == -56`, which is neither -1 nor in
`[0, 254)`. -/
theorem C2_index_out_of_range :
    (run (construct 254 true true) [Op.setTrue 200 true]).def_size = 254 ∧
    (run (construct 254 true true) [Op.setTrue 200 true]).getIndex = -56 ∧
    ¬ ((run (construct 254 true true) [Op.setTrue 200 true]).getIndex = -1 ∨
       (0 ≤ (run (construct 254 true true) [Op.setTrue 200 true]).getIndex ∧
        (run (construct 254 true true) [Op.setTrue 200 true]).getIndex < 254)) := by
  decide

/-- C7 (defect in the code). `setRangeStates(1, 2, true)` on capacity 5 gives the flags
`[false,true,true,false,false]` and `getIndex() == 1`; `setRangeStates(200, 210, true)` on
capacity 254 sets exactly the flags 200..210 but leaves `getIndex() == -56` instead of 200. -/
theorem C7_setRange_start_200 :
    ((construct 5 true true).setRangeStates 1 2 true).flags = [false, true, true, false, false] ∧
    ((construct 5 true true).setRangeStates 1 2 true).getIndex = 1 ∧
    ((construct 254 true true).setRangeStates 200 210 true).flags =
      List.replicate 200 false ++ List.replicate 11 true ++ List.replicate 43 false ∧
    ((construct 254 true true).setRangeStates 200 210 true).getIndex = -56 ∧
    ((construct 254 true true).setRangeStates 200 210 true).getIndex ≠ 200 := by
  decide

/-! ## Well-formed trackers -/

theorem WF.array_length {s : StateControl} (h : WF s) {arr : List Bool}
    (ha : s.array = some arr) : arr.length = s.def_size := by
  rcases h.1 with ⟨h1, _, _⟩ | ⟨arr1, saved, h1, _, h3, _, _, _⟩
  · rw [h1] at ha; cases ha
  · rw [h1] at ha; cases ha; exact h3

theorem WF.saved_length {s : StateControl} (h : WF s) {saved : List Bool}
    (ha : s.savedState = some saved) : saved.length = s.def_size := by
  rcases h.1 with ⟨_, h1, _⟩ | ⟨arr1, saved1, _, h1, _, h3, _, _⟩
  · rw [h1] at ha; cases ha
  · rw [h1] at ha; cases ha; exact h3

theorem WF.def_size_le {s : StateControl} (h : WF s) : s.def_size ≤ 254 := by
  rcases h.1 with ⟨_, _, h1⟩ | ⟨_, _, _, _, _, _, _, h1⟩ <;> omega

theorem WF.def_size_pos {s : StateControl} (h : WF s) {arr : List Bool}
    (ha : s.array = some arr) : 1 ≤ s.def_size := by
  rcases h.1 with ⟨h1, _, _⟩ | ⟨_, _, _, _, _, _, h1, _⟩
  · rw [h1] at ha; cases ha
  · exact h1

theorem WF.saved_of_array {s : StateControl} (h : WF s) {arr : List Bool}
    (ha : s.array = some arr) : ∃ saved, s.savedState = some saved := by
  rcases h.1 with ⟨h1, _, _⟩ | ⟨_, saved, _, h1, _, _, _, _⟩
  · rw [h1] at ha; cases ha
  · exact ⟨saved, h1⟩

theorem WF.saved_none {s : StateControl} (h : WF s) (ha : s.array = none) :
    s.savedState = none := by
  rcases h.1 with ⟨_, h1, _⟩ | ⟨_, _, h1, _, _, _, _, _⟩
  · exact h1
  · rw [h1] at ha; cases ha

/-- The constructor yields a well-formed tracker. -/
theorem construct_WF (c : Int) (allocArray allocSaved : Bool) :
    WF (construct c allocArray allocSaved) := by
  rcases construct_cases c allocArray allocSaved with h | ⟨n, h1, h2, h⟩
  · rw [h]
    exact ⟨Or.inl ⟨rfl, rfl, rfl⟩, by decide, by decide⟩
  · rw [h]
    exact ⟨Or.inr ⟨_, _, rfl, rfl, by simp, by simp, h1, h2⟩,
      ⟨by norm_num, by norm_num⟩, ⟨by norm_num, by norm_num⟩⟩

/-! ## Copy -/

/-- C4. `copyStatesFrom(source)` returns true exactly when both trackers are enabled (their
arrays are live) and have the same capacity; when it returns true the target's flags and
`getIndex()` are those of the source; when it returns false the target is unchanged
altogether (flags, current index and snapshot). -/
theorem C4_copyStatesFrom (s source : StateControl) (hs : WF s) (hsrc : WF source) :
    ((s.copyStatesFrom source).2 = true ↔
      (s.array.isSome = true ∧ source.array.isSome = true ∧ s.def_size = source.def_size)) ∧
    ((s.copyStatesFrom source).2 = true →
      (s.copyStatesFrom source).1.flags = source.flags ∧
      (s.copyStatesFrom source).1.getIndex = source.getIndex) ∧
    ((s.copyStatesFrom source).2 = false → (s.copyStatesFrom source).1 = s) := by
  cases ha : s.array with
  | none => simp [copyStatesFrom, ha]
  | some arr =>
    cases hb : source.array with
    | none => simp [copyStatesFrom, ha, hb]
    | some src =>
      by_cases hd : s.def_size = source.def_size
      · have hcopy : forLoop (fun i a => a.set i (src.getD i false)) 0 source.def_size arr = src :=
          forLoop_copy src arr source.def_size (by rw [hs.array_length ha, hd])
            (hsrc.array_length hb)
        simp only [copyStatesFrom, ha, hb, hd, hcopy, flags, getIndex, ne_eq, not_true_eq_false,
          if_false, Option.isSome_some, and_self, Option.getD_some, implies_true, true_and,
          Bool.true_eq_false, false_implies]
      · simp [copyStatesFrom, ha, hb, hd]

/-- Witness of `C4_copyStatesFrom`: two trackers of capacity 3. -/
theorem C4_copyStatesFrom_witness :
    (((construct 3 true true).copyStatesFrom ((construct 3 true true).setState 1 true)).2 = true ↔
      ((construct 3 true true).array.isSome = true ∧
       ((construct 3 true true).setState 1 true).array.isSome = true ∧
       (construct 3 true true).def_size = ((construct 3 true true).setState 1 true).def_size)) ∧
    (((construct 3 true true).copyStatesFrom ((construct 3 true true).setState 1 true)).2 = true →
      ((construct 3 true true).copyStatesFrom ((construct 3 true true).setState 1 true)).1.flags =
        ((construct 3 true true).setState 1 true).flags ∧
      ((construct 3 true true).copyStatesFrom ((construct 3 true true).setState 1 true)).1.getIndex =
        ((construct 3 true true).setState 1 true).getIndex) ∧
    (((construct 3 true true).copyStatesFrom ((construct 3 true true).setState 1 true)).2 = false →
      ((construct 3 true true).copyStatesFrom ((construct 3 true true).setState 1 true)).1 =
        construct 3 true true) :=
  C4_copyStatesFrom (construct 3 true true) ((construct 3 true true).setState 1 true)
    (construct_WF 3 true true)
    ⟨Or.inr ⟨[false, true, false], [false, false, false], by decide, by decide, by decide,
      by decide, by decide, by decide⟩, by decide, by decide⟩

/-! ## Frame of the calls other than `saveState` -/

theorem SameFrame.refl (s : StateControl) : SameFrame s s := ⟨rfl, rfl, rfl, rfl⟩

theorem SameFrame.trans {s t u : StateControl} (h1 : SameFrame s t) (h2 : SameFrame t u) :
    SameFrame s u :=
  ⟨h2.1.trans h1.1, h2.2.1.trans h1.2.1, h2.2.2.1.trans h1.2.2.1, h2.2.2.2.trans h1.2.2.2⟩

theorem clearOthers_body_length (index i : Nat) (a : List Bool) :
    (if i ≠ index then a.set i false else a).length = a.length := by
  split_ifs <;> simp

theorem clearOthers_frame (s : StateControl) (index : Nat) :
    SameFrame s (s.clearOthers index) := by
  unfold clearOthers
  split
  · exact SameFrame.refl s
  · rename_i arr ha
    split_ifs
    · exact SameFrame.refl s
    · refine ⟨rfl, rfl, rfl, ?_⟩
      simp only [ha, Option.map_some', forLoop_length _ (clearOthers_body_length index)]

theorem setState_frame (s : StateControl) (index : Nat) (exclusive : Bool) :
    SameFrame s (s.setState index exclusive) := by
  unfold setState
  cases hv : s.isValidIndex index
  · exact SameFrame.refl s
  · cases ha : s.array with
    | none => exact SameFrame.refl s
    | some arr =>
      have h1 : SameFrame s { s with array := some (arr.set index true),
                                     trueIndex := toInt8 index } :=
        ⟨rfl, rfl, rfl, by simp [ha]⟩
      cases exclusive
      · exact h1
      · exact h1.trans (clearOthers_frame _ index)

theorem setStateValue_frame (s : StateControl) (index : Nat) (state exclusive : Bool) :
    SameFrame s (s.setStateValue index state exclusive) := by
  unfold setStateValue
  cases hv : s.isValidIndex index
  · exact SameFrame.refl s
  · cases ha : s.array with
    | none => exact SameFrame.refl s
    | some arr =>
      cases state
      · simp only [Bool.not_true, Bool.false_eq_true, if_false]
        split_ifs <;> exact ⟨rfl, rfl, rfl, by simp [ha]⟩
      · have h1 : SameFrame s { s with array := some (arr.set index true),
                                       trueIndex := toInt8 index } :=
          ⟨rfl, rfl, rfl, by simp [ha]⟩
        cases exclusive
        · exact h1
        · exact h1.trans (clearOthers_frame _ index)

theorem toggleState_frame (s : StateControl) (index : Nat) :
    SameFrame s (s.toggleState index) := by
  unfold toggleState
  cases hv : s.isValidIndex index
  · exact SameFrame.refl s
  · cases ha : s.array with
    | none => exact SameFrame.refl s
    | some arr =>
      simp only [Bool.not_true, Bool.false_eq_true, if_false]
      cases hb : (arr.set index (!arr.getD index false)).getD index false
      · simp only [Bool.false_eq_true, if_false]
        split_ifs <;> exact ⟨rfl, rfl, rfl, by simp [ha]⟩
      · have h1 : SameFrame s { s with array := some (arr.set index (!arr.getD index false)),
                                       trueIndex := toInt8 index } :=
          ⟨rfl, rfl, rfl, by simp [ha]⟩
        exact h1.trans (clearOthers_frame _ index)

theorem resetArray_frame (s : StateControl) : SameFrame s s.resetArray := by
  unfold resetArray
  split
  · exact SameFrame.refl s
  · rename_i arr ha
    split_ifs
    · exact SameFrame.refl s
    · exact ⟨rfl, rfl, rfl, by simp [ha, forLoop_length]⟩

theorem setAllStates_frame (s : StateControl) (state : Bool) :
    SameFrame s (s.setAllStates state) := by
  unfold setAllStates
  split
  · exact SameFrame.refl s
  · rename_i arr ha
    by_cases hd : s.def_size = 0
    · simp only [hd, if_true]
      exact SameFrame.refl s
    · simp only [hd, if_false]
      exact ⟨rfl, rfl, rfl, by simp [ha, forLoop_length]⟩

theorem setDefaultIndex_frame (s : StateControl) : SameFrame s s.setDefaultIndex := by
  unfold setDefaultIndex
  split
  · exact SameFrame.refl s
  · rename_i arr ha
    split_ifs
    · exact SameFrame.refl s
    · exact ⟨rfl, rfl, rfl, by simp [ha, forLoop_length]⟩

theorem invertStates_frame (s : StateControl) (oob : Bool) :
    SameFrame s (s.invertStates oob) := by
  unfold invertStates
  split
  · exact SameFrame.refl s
  · rename_i arr ha
    split_ifs
    · exact SameFrame.refl s
    · exact ⟨rfl, rfl, rfl, by simp [ha, forLoop_length]⟩

theorem restoreSavedState_frame (s : StateControl) : SameFrame s s.restoreSavedState := by
  unfold restoreSavedState
  split
  · rename_i arr saved ha hb
    split_ifs
    · exact SameFrame.refl s
    · exact ⟨rfl, rfl, rfl, by simp [ha, forLoop_length]⟩
  · exact SameFrame.refl s

theorem copyStatesFrom_frame (s source : StateControl) :
    SameFrame s (s.copyStatesFrom source).1 := by
  unfold copyStatesFrom
  split
  · rename_i arr src ha hb
    split_ifs
    · exact SameFrame.refl s
    · exact ⟨rfl, rfl, rfl, by simp [ha, forLoop_length]⟩
  · exact SameFrame.refl s

theorem rangeLoop_length (state : Bool) (stop fuel i : Nat) (st r : List Bool × Int)
    (h : rangeLoop state stop fuel i st = some r) : r.1.length = st.1.length := by
  induction fuel generalizing i st with
  | zero => simp [rangeLoop] at h
  | succ fuel ih =>
    unfold rangeLoop at h
    by_cases hi : i ≤ stop
    · rw [if_pos hi] at h
      rw [ih _ _ h, List.length_set]
    · rw [if_neg hi] at h
      cases h; rfl

theorem setRangeStatesFuel_frame (fuel : Nat) (s t : StateControl) (start stop : Nat)
    (state : Bool) (h : setRangeStatesFuel fuel s start stop state = some t) :
    SameFrame s t := by
  unfold setRangeStatesFuel at h
  cases ha : s.array with
  | none =>
    simp only [ha, Option.some.injEq] at h
    subst h; exact SameFrame.refl s
  | some arr =>
    simp only [ha] at h
    split_ifs at h
    · cases h; exact SameFrame.refl s
    · have hr := resetArray_frame s
      cases hb : s.resetArray.array with
      | none =>
        simp only [hb, Option.some.injEq] at h
        subst h; exact hr
      | some arr1 =>
        simp only [hb] at h
        cases hl : rangeLoop state (toUInt8 (arduinoMin (↑stop) (↑s.def_size - 1))) fuel start
            (arr1, s.resetArray.trueIndex) with
        | none => simp [hl] at h
        | some r =>
          simp only [hl, Option.some.injEq] at h
          subst h
          refine hr.trans ⟨rfl, rfl, rfl, ?_⟩
          simp only [hb, Option.map_some', rangeLoop_length _ _ _ _ _ _ hl]

theorem setRangeStates_frame (s : StateControl) (start stop : Nat) (state : Bool) :
    SameFrame s (s.setRangeStates start stop state) := by
  unfold setRangeStates
  cases h : setRangeStatesFuel 256 s start stop state with
  | none => exact SameFrame.refl s
  | some t => exact setRangeStatesFuel_frame 256 s t start stop state h

/-- Every call other than `saveState()` leaves the snapshot, the capacity and the size of the
flag array alone. -/
theorem step_frame (s : StateControl) (op : Op) (h : op.isSave = false) :
    SameFrame s (step s op) := by
  cases op with
  | setTrue index exclusive => exact setState_frame s index exclusive
  | setValue index state exclusive => exact setStateValue_frame s index state exclusive
  | toggle index => exact toggleState_frame s index
  | resetAll => exact resetArray_frame s
  | setAll state => exact setAllStates_frame s state
  | setDefault => exact setDefaultIndex_frame s
  | setRange start stop state => exact setRangeStates_frame s start stop state
  | invertAll oob => exact invertStates_frame s oob
  | save => simp [Op.isSave] at h
  | restore => exact restoreSavedState_frame s
  | copyFrom source => exact copyStatesFrom_frame s source

theorem run_frame (ops : List Op) (s : StateControl) (h : ∀ op ∈ ops, op.isSave = false) :
    SameFrame s (run s ops) := by
  induction ops generalizing s with
  | nil => exact SameFrame.refl s
  | cons op ops ih =>
    have h1 := step_frame s op (h op (List.mem_cons_self _ _))
    have h2 := ih (step s op) (fun o ho => h o (List.mem_cons_of_mem _ ho))
    exact h1.trans h2

/-! ## Save and restore -/

/-- On a disabled tracker every call is a no-op. -/
theorem step_disabled (s : StateControl) (op : Op) (h : s.array = none) : step s op = s := by
  cases op <;>
    simp [step, setState, setStateValue, toggleState, resetArray, setAllStates, setDefaultIndex,
      setRangeStates, setRangeStatesFuel, invertStates, saveState, restoreSavedState,
      copyStatesFrom, isValidIndex, h]

theorem run_disabled (ops : List Op) (s : StateControl) (h : s.array = none) :
    run s ops = s := by
  induction ops with
  | nil => rfl
  | cons op ops ih =>
    show run (step s op) ops = s
    rw [step_disabled s op h]
    exact ih

/-- C3. Round trip: `saveState()`, then any finite sequence of calls that contains no
`saveState()` (state changes of any kind, `copyStatesFrom` included), then
`restoreSavedState()` gives back exactly the flag sequence and `getIndex()` of the state in
which `saveState()` was called. -/
theorem C3_save_restore_roundtrip (s : StateControl) (hs : WF s) (ops : List Op)
    (hops : ∀ op ∈ ops, op.isSave = false) :
    (run s.saveState ops).restoreSavedState.flags = s.flags ∧
    (run s.saveState ops).restoreSavedState.getIndex = s.getIndex := by
  cases ha : s.array with
  | none =>
    have h1 : s.saveState = s := by simp [saveState, ha]
    rw [h1, run_disabled ops s ha]
    have h2 : s.restoreSavedState = s := by simp [restoreSavedState, ha]
    rw [h2]
    exact ⟨rfl, rfl⟩
  | some arr =>
    obtain ⟨saved, hsv⟩ := hs.saved_of_array ha
    have hlen := hs.array_length ha
    have hslen := hs.saved_length hsv
    have hpos := hs.def_size_pos ha
    have hne : s.def_size ≠ 0 := by omega
    have hsave : s.saveState = { s with savedState := some arr, savedTrueIndex := s.trueIndex } := by
      simp only [saveState, ha, hsv, hne, if_false, forLoop_copy arr saved s.def_size hslen hlen]
    have hfr := run_frame ops s.saveState hops
    generalize run s.saveState ops = t at hfr ⊢
    obtain ⟨f1, f2, f3, f4⟩ := hfr
    rw [hsave] at f1 f2 f3 f4
    dsimp only at f1 f2 f3 f4
    rw [ha] at f4
    cases hta : t.array with
    | none => simp [hta] at f4
    | some arrT =>
      simp only [hta, Option.map_some', Option.some.injEq] at f4
      have hne2 : t.def_size ≠ 0 := by omega
      have hcopy := forLoop_copy arr arrT t.def_size (by omega) (by omega)
      simp only [restoreSavedState, hta, f1, f2, hne2, if_false, hcopy, flags, getIndex, ha,
        Option.getD_some, and_self]

/-- Witness of `C3_save_restore_roundtrip`: capacity 4, flag 2 set, then saved, then four
state changes, then restored. -/
theorem C3_save_restore_roundtrip_witness :
    (run ((construct 4 true true).setState 2 true).saveState
      [Op.setAll true, Op.toggle 1, Op.invertAll false, Op.setRange 0 3 true]).restoreSavedState.flags
      = ((construct 4 true true).setState 2 true).flags ∧
    (run ((construct 4 true true).setState 2 true).saveState
      [Op.setAll true, Op.toggle 1, Op.invertAll false, Op.setRange 0 3 true]).restoreSavedState.getIndex
      = ((construct 4 true true).setState 2 true).getIndex :=
  C3_save_restore_roundtrip ((construct 4 true true).setState 2 true)
    ⟨Or.inr ⟨[false, false, true, false], [false, false, false, false], by decide, by decide,
      by decide, by decide, by decide, by decide⟩, by decide, by decide⟩
    [Op.setAll true, Op.toggle 1, Op.invertAll false, Op.setRange 0 3 true] (by decide)

/-! ## Inversion -/

theorem invertLoop_getD (n : Nat) (a : List Bool) (j : Nat) :
    (forLoop (fun i a => a.set i (!a.getD i false)) 0 n a).getD j false =
      if j < n ∧ j < a.length then !a.getD j false else a.getD j false := by
  rw [forLoop_getD false (fun _ b => !b) _ (fun i a => rfl)]
  have h : (0 ≤ j ∧ j < 0 + n ∧ j < a.length) ↔ (j < n ∧ j < a.length) := by omega
  simp only [h]

theorem invertLoop_twice (n : Nat) (a : List Bool) :
    forLoop (fun i a => a.set i (!a.getD i false)) 0 n
      (forLoop (fun i a => a.set i (!a.getD i false)) 0 n a) = a := by
  apply list_ext_getD false
  · rw [forLoop_length _ (fun i a => by simp), forLoop_length _ (fun i a => by simp)]
  · intro j _
    rw [invertLoop_getD, invertLoop_getD, forLoop_length _ (fun i a => by simp)]
    by_cases h : j < n ∧ j < a.length
    · simp only [h, and_self, if_true, Bool.not_not]
    · simp only [h, if_false]

/-- C8. Involution: in every tracker state, `invertStates()` applied twice returns every flag
to its original value: the flag sequence is the original one and `getState(i)` reads as
before for every `i`. (Whatever an out-of-range read of `array[trueIndex]` yields.) -/
theorem C8_invert_involution (s : StateControl) (oob1 oob2 : Bool) :
    ((s.invertStates oob1).invertStates oob2).flags = s.flags ∧
    ∀ i, ((s.invertStates oob1).invertStates oob2).getState i = s.getState i := by
  cases ha : s.array with
  | none => simp [invertStates, ha, flags, getState, isValidIndex]
  | some arr =>
    by_cases hd : s.def_size = 0
    · simp [invertStates, ha, hd, flags, getState, isValidIndex]
    · simp only [invertStates, ha, hd, if_false, invertLoop_twice, flags, getState, isValidIndex,
        Option.getD_some, Option.isSome_some, Bool.true_and, implies_true, and_self]

/-! ## Counting and listing the true flags -/

/-- The counting loop of `countTrueStates`: without 8-bit overflow it adds the number of true
flags among the cells `k, ..., k+n-1`. -/
theorem countLoop_eq (arr : List Bool) (k n c : Nat) (h : c + n ≤ 255) :
    forLoop (fun i count => if arr.getD i false then (count + 1) % 256 else count) k n c =
      c + ((List.range' k n).filter (fun i => arr.getD i false)).length := by
  induction n generalizing k c with
  | zero => simp [forLoop]
  | succ n ih =>
    rw [forLoop_succ, List.range'_succ, List.filter_cons]
    by_cases hp : arr.getD k false = true
    · rw [if_pos hp, if_pos hp, Nat.mod_eq_of_lt (by omega), ih _ _ (by omega),
        List.length_cons]
      omega
    · rw [if_neg hp, if_neg hp, ih _ _ (by omega)]

theorem filter_range'_length_le (p : Nat → Bool) (k n : Nat) :
    ((List.range' k n).filter p).length ≤ n := by
  have := List.length_filter_le p (List.range' k n)
  simpa using this

/-- The filling loop of `getAllTrueIndices`: with the cursor at the end of `pre` and room for
all the indices in `rest`, it stores the true indices among `k, ..., k+n-1` in ascending
order. -/
theorem indexLoop_eq (arr : List Bool) (k n : Nat) (pre rest : List Nat)
    (hroom : ((List.range' k n).filter (fun i => arr.getD i false)).length ≤ rest.length)
    (h256 : pre.length + rest.length < 256) :
    forLoop (fun i (st : List Nat × Nat) =>
        if arr.getD i false then (st.1.set st.2 i, (st.2 + 1) % 256) else st)
      k n (pre ++ rest, pre.length) =
    (pre ++ (List.range' k n).filter (fun i => arr.getD i false) ++
        rest.drop ((List.range' k n).filter (fun i => arr.getD i false)).length,
      pre.length + ((List.range' k n).filter (fun i => arr.getD i false)).length) := by
  induction n generalizing k pre rest with
  | zero => simp [forLoop]
  | succ n ih =>
    rw [forLoop_succ, List.range'_succ, List.filter_cons]
    rw [List.range'_succ, List.filter_cons] at hroom
    by_cases hp : arr.getD k false = true
    · rw [if_pos hp] at hroom
      simp only [if_pos hp]
      cases rest with
      | nil => simp at hroom
      | cons r rest1 =>
        simp only [List.length_cons] at hroom h256
        have hset : (pre ++ r :: rest1).set pre.length k = (pre ++ [k]) ++ rest1 := by
          simp
        have hpos : (pre.length + 1) % 256 = (pre ++ [k]).length := by
          rw [Nat.mod_eq_of_lt (by omega)]; simp
        rw [hset, hpos, ih (k + 1) (pre ++ [k]) rest1 (by omega) (by simp; omega)]
        simp only [List.length_append, List.length_cons, List.length_nil, List.append_assoc,
          List.singleton_append, List.drop_succ_cons, Prod.mk.injEq, true_and]
        omega
    · rw [if_neg hp] at hroom
      simp only [if_neg hp]
      exact ih (k + 1) pre rest hroom h256

theorem countTrueStates_eq (s : StateControl) (hs : WF s) (arr : List Bool)
    (ha : s.array = some arr) :
    s.countTrueStates =
      ((List.range' 0 s.def_size).filter (fun i => arr.getD i false)).length := by
  have hle := hs.def_size_le
  have hpos := hs.def_size_pos ha
  have hne : s.def_size ≠ 0 := by omega
  simp only [countTrueStates, ha, hne, if_false]
  rw [countLoop_eq arr 0 s.def_size 0 (by omega), Nat.zero_add]

/-- Closed form of `getAllTrueIndices` on an enabled tracker when the result buffer is
allocated. -/
theorem getAllTrueIndices_eq (s : StateControl) (hs : WF s) (arr : List Bool)
    (ha : s.array = some arr) :
    s.getAllTrueIndices true =
      (if ((List.range' 0 s.def_size).filter (fun i => arr.getD i false)).length = 0 then none
       else some ((List.range' 0 s.def_size).filter (fun i => arr.getD i false)),
       ((List.range' 0 s.def_size).filter (fun i => arr.getD i false)).length) := by
  have hle := hs.def_size_le
  have hpos := hs.def_size_pos ha
  have hne : s.def_size ≠ 0 := by omega
  have hcount := countTrueStates_eq s hs arr ha
  have hlen := filter_range'_length_le (fun i => arr.getD i false) 0 s.def_size
  simp only [getAllTrueIndices, ha, hne, if_false, hcount]
  by_cases h0 : ((List.range' 0 s.def_size).filter (fun i => arr.getD i false)).length = 0
  · simp only [h0, if_true]
  · simp only [h0, if_false, Bool.not_true, Bool.false_eq_true]
    have hloop := indexLoop_eq arr 0 s.def_size []
      (List.replicate ((List.range' 0 s.def_size).filter (fun i => arr.getD i false)).length 0)
      (by simp) (by simp only [List.length_nil, List.length_replicate]; omega)
    simp only [List.nil_append, List.length_nil] at hloop
    rw [hloop]
    simp

/-- C9, as the code has it. In every tracker state, when the result buffer is allocated,
`getAllTrueIndices` yields a sequence (`nullptr` standing for the empty one) that is strictly
ascending and contains `i` exactly when `getState(i)` is true; the reported count is its
length and equals `countTrueStates()`; with no true flag it is `nullptr` with count 0. When
the allocation of the result buffer fails, the result is `nullptr` with count 0 whatever the
flags. Flags `[false,true,false,true]` give `[1,3]` with count 2. -/
theorem C9_getAllTrueIndices (s : StateControl) (hs : WF s) :
    ((s.getAllTrueIndices true).1.getD []).Pairwise (fun a b => a < b) ∧
    (∀ i, i ∈ (s.getAllTrueIndices true).1.getD [] ↔ s.getState i = true) ∧
    (s.getAllTrueIndices true).2 = ((s.getAllTrueIndices true).1.getD []).length ∧
    (s.getAllTrueIndices true).2 = s.countTrueStates ∧
    (s.countTrueStates = 0 → s.getAllTrueIndices true = (none, 0)) ∧
    s.getAllTrueIndices false = (none, 0) ∧
    (((construct 4 true true).setState 1 false).setState 3 false).flags
      = [false, true, false, true] ∧
    (((construct 4 true true).setState 1 false).setState 3 false).getAllTrueIndices true
      = (some [1, 3], 2) := by
  refine ⟨?_, ?_, ?_, ?_, ?_, ?_, by decide, by decide⟩
  all_goals
    cases ha : s.array with
    | none => simp [getAllTrueIndices, ha, getState, isValidIndex, countTrueStates]
    | some arr => ?_
  all_goals
    have hcount := countTrueStates_eq s hs arr ha
    have heq := getAllTrueIndices_eq s hs arr ha
    have hsorted : ((List.range' 0 s.def_size).filter (fun i => arr.getD i false)).Pairwise
        (fun a b => a < b) := (List.pairwise_lt_range' 0 s.def_size).filter _
  · rw [heq]
    split_ifs
    · exact List.Pairwise.nil
    · exact hsorted
  · intro i
    rw [heq]
    have hmem : i ∈ (List.range' 0 s.def_size).filter (fun i => arr.getD i false) ↔
        s.getState i = true := by
      simp only [List.mem_filter, List.mem_range'_1, getState, isValidIndex, ha,
        Option.isSome_some, Bool.true_and, decide_eq_true_eq]
      by_cases hi : i < s.def_size
      · simp [hi]
      · simp [hi]
    by_cases h0 : ((List.range' 0 s.def_size).filter (fun i => arr.getD i false)).length = 0
    · have hL := List.length_eq_zero.mp h0
      simp only [if_pos h0, Option.getD_none]
      rw [← hmem, hL]
    · simp only [if_neg h0, Option.getD_some]
      exact hmem
  · rw [heq]
    by_cases h0 : ((List.range' 0 s.def_size).filter (fun i => arr.getD i false)).length = 0
    · rw [if_pos h0]
      exact h0
    · rw [if_neg h0]
      rfl
  · rw [heq, hcount]
  · intro hz
    rw [hcount] at hz
    rw [heq, if_pos hz, hz]
  · have hpos := hs.def_size_pos ha
    have hne : s.def_size ≠ 0 := by omega
    simp only [getAllTrueIndices, ha, hne, if_false]
    by_cases h0 : s.countTrueStates = 0
    · simp only [h0, if_true]
    · simp only [h0, if_false, Bool.not_false, if_true]

/-- Witness of `C9_getAllTrueIndices`: capacity 4 with the flags 1 and 3 set. -/
theorem C9_getAllTrueIndices_witness :
    (((((construct 4 true true).setState 1 false).setState 3 false).getAllTrueIndices
        true).1.getD []).Pairwise (fun a b => a < b) ∧
    (∀ i, i ∈ ((((construct 4 true true).setState 1 false).setState 3 false).getAllTrueIndices
        true).1.getD [] ↔
      (((construct 4 true true).setState 1 false).setState 3 false).getState i = true) ∧
    ((((construct 4 true true).setState 1 false).setState 3 false).getAllTrueIndices true).2 =
      (((((construct 4 true true).setState 1 false).setState 3 false).getAllTrueIndices
        true).1.getD []).length ∧
    ((((construct 4 true true).setState 1 false).setState 3 false).getAllTrueIndices true).2 =
      (((construct 4 true true).setState 1 false).setState 3 false).countTrueStates ∧
    ((((construct 4 true true).setState 1 false).setState 3 false).countTrueStates = 0 →
      (((construct 4 true true).setState 1 false).setState 3 false).getAllTrueIndices true
        = (none, 0)) ∧
    (((construct 4 true true).setState 1 false).setState 3 false).getAllTrueIndices false
      = (none, 0) ∧
    (((construct 4 true true).setState 1 false).setState 3 false).flags
      = [false, true, false, true] ∧
    (((construct 4 true true).setState 1 false).setState 3 false).getAllTrueIndices true
      = (some [1, 3], 2) :=
  C9_getAllTrueIndices (((construct 4 true true).setState 1 false).setState 3 false)
    ⟨Or.inr ⟨[false, true, false, true], [false, false, false, false], by decide, by decide,
      by decide, by decide, by decide, by decide⟩, by decide, by decide⟩

/-- C9 fails as stated when the result buffer cannot be allocated: with the flags
`[false,true,false,true]` the call then reports count 0 and no sequence, although
`countTrueStates()` is 2 and the flags 1 and 3 are true. -/
theorem C9_counterexample :
    (((construct 4 true true).setState 1 false).setState 3 false).flags
      = [false, true, false, true] ∧
    (((construct 4 true true).setState 1 false).setState 3 false).getAllTrueIndices false
      = (none, 0) ∧
    (((construct 4 true true).setState 1 false).setState 3 false).countTrueStates = 2 ∧
    ((((construct 4 true true).setState 1 false).setState 3 false).getAllTrueIndices false).2 ≠
      (((construct 4 true true).setState 1 false).setState 3 false).countTrueStates := by
  decide

/-! ## Serialization -/

/-- A loop that stores a value `g i` into cell `i`, started at the end of `pre` with room for
`n` cells in `rest`, overwrites the first `n` cells of `rest`. -/
theorem forLoop_fill {α : Type} (g : Nat → α) (n : Nat) (pre rest : List α)
    (h : n ≤ rest.length) :
    forLoop (fun i b => b.set i (g i)) pre.length n (pre ++ rest) =
      pre ++ (List.range' pre.length n).map g ++ rest.drop n := by
  induction n generalizing pre rest with
  | zero => simp [forLoop]
  | succ n ih =>
    cases rest with
    | nil => simp at h
    | cons r rest1 =>
      simp only [List.length_cons] at h
      have hset : (pre ++ r :: rest1).set pre.length (g pre.length) =
          (pre ++ [g pre.length]) ++ rest1 := by simp
      have hlen : pre.length + 1 = (pre ++ [g pre.length]).length := by simp
      rw [forLoop_succ, hset, hlen, ih (pre ++ [g pre.length]) rest1 (by omega)]
      simp [List.range'_succ]

/-- The character written for a flag. -/
theorem flagChar_ne_nul (b : Bool) : (if b then '1' else '0') ≠ nul := by
  cases b <;> decide

/-- Closed form of `serializeStates` on an enabled tracker: the buffer holds one character per
flag for the first `min(def_size, bufSize-1)` flags, then the terminator, then its old
content. -/
theorem serializeStates_eq (s : StateControl) (hs : WF s) (arr : List Bool)
    (ha : s.array = some arr) (buffer : List Char) (bufSize : Nat)
    (h1 : 1 ≤ bufSize) (h2 : bufSize ≤ buffer.length) :
    s.serializeStates buffer bufSize =
      (List.range' 0 (min s.def_size (bufSize - 1))).map
          (fun i => if arr.getD i false then '1' else '0') ++
        nul :: buffer.drop (min s.def_size (bufSize - 1) + 1) := by
  have hle := hs.def_size_le
  have hpos := hs.def_size_pos ha
  have hcond : ¬ (s.def_size = 0 ∨ bufSize = 0) := by omega
  have hlen : toUInt8 (arduinoMin s.def_size ((bufSize : Int) - 1)) =
      min s.def_size (bufSize - 1) := by
    unfold toUInt8 arduinoMin
    split_ifs <;> omega
  simp only [serializeStates, ha, hcond, if_false, hlen]
  have hfill := forLoop_fill (fun i => if arr.getD i false then '1' else '0')
    (min s.def_size (bufSize - 1)) [] buffer (by omega)
  simp only [List.nil_append, List.length_nil] at hfill
  rw [hfill]
  have hd : buffer.drop (min s.def_size (bufSize - 1)) =
      buffer.getD (min s.def_size (bufSize - 1)) nul ::
        buffer.drop (min s.def_size (bufSize - 1) + 1) := by
    rw [List.getD_eq_getElem _ _ (by omega)]
    exact List.drop_eq_getElem_cons (by omega)
  rw [hd]
  have hl : ((List.range' 0 (min s.def_size (bufSize - 1))).map
      (fun i => if arr.getD i false then '1' else '0')).length =
      min s.def_size (bufSize - 1) := by simp
  rw [List.set_append_right _ _ (by rw [hl]), hl, Nat.sub_self, List.set_cons_zero]

theorem cString_append_nul (a rest : List Char) (h : ∀ c ∈ a, c ≠ nul) :
    cString (a ++ nul :: rest) = a := by
  unfold cString
  rw [List.takeWhile_append_of_pos (by simpa using h), List.takeWhile_cons_of_neg (by simp)]
  simp

theorem cString_serializeStates (s : StateControl) (hs : WF s) (arr : List Bool)
    (ha : s.array = some arr) (buffer : List Char) (bufSize : Nat)
    (h1 : 1 ≤ bufSize) (h2 : bufSize ≤ buffer.length) :
    cString (s.serializeStates buffer bufSize) =
      (List.range' 0 (min s.def_size (bufSize - 1))).map
          (fun i => if arr.getD i false then '1' else '0') := by
  rw [serializeStates_eq s hs arr ha buffer bufSize h1 h2]
  apply cString_append_nul
  intro c hc
  rw [List.mem_map] at hc
  obtain ⟨i, _, rfl⟩ := hc
  exact flagChar_ne_nul _

/-- C10. For every enabled tracker and every buffer of `bufSize ≥ 1` characters,
`serializeStates` leaves in the buffer a string of exactly `min(def_size, bufSize-1)`
characters, closed by the terminator inside the buffer; its character `i` is `'1'` when
`getState(i)` is true and `'0'` otherwise. With `bufSize ≥ serializeStatesSize()` the string
has exactly `def_size` characters. `setDefaultIndex()` then `serializeStates` on capacity 4
gives `"1000"`. -/
theorem C10_serializeStates (s : StateControl) (hs : WF s) (hen : s.array.isSome = true)
    (buffer : List Char) (bufSize : Nat) (h1 : 1 ≤ bufSize) (h2 : bufSize ≤ buffer.length) :
    (cString (s.serializeStates buffer bufSize)).length = min s.def_size (bufSize - 1) ∧
    (∀ i, i < min s.def_size (bufSize - 1) →
      (cString (s.serializeStates buffer bufSize)).getD i nul =
        if s.getState i then '1' else '0') ∧
    ((s.serializeStates buffer bufSize).getD (min s.def_size (bufSize - 1)) '0' = nul ∧
      min s.def_size (bufSize - 1) < bufSize) ∧
    (s.serializeStatesSize ≤ bufSize →
      (cString (s.serializeStates buffer bufSize)).length = s.def_size) ∧
    String.mk (cString ((construct 4 true true).setDefaultIndex.serializeStates
      (List.replicate 5 'x') 5)) = "1000" := by
  obtain ⟨arr, ha⟩ := Option.isSome_iff_exists.mp hen
  have hle := hs.def_size_le
  have hstr := cString_serializeStates s hs arr ha buffer bufSize h1 h2
  have hlen : (cString (s.serializeStates buffer bufSize)).length =
      min s.def_size (bufSize - 1) := by
    rw [hstr]; simp
  refine ⟨hlen, ?_, ⟨?_, by omega⟩, ?_, by decide⟩
  · intro i hi
    rw [hstr, List.getD_eq_getElem _ _ (by simpa using hi)]
    have hv : s.isValidIndex i = true := by
      simp only [isValidIndex, ha, Option.isSome_some, Bool.true_and, decide_eq_true_eq]
      omega
    simp only [List.getElem_map, List.getElem_range', getState, hv, ha, if_true]
    simp
  · rw [serializeStates_eq s hs arr ha buffer bufSize h1 h2]
    rw [List.getD_eq_getElem?_getD, List.getElem?_append_right (by simp)]
    simp
  · intro hsz
    rw [hlen]
    unfold serializeStatesSize at hsz
    rw [Nat.mod_eq_of_lt (by omega)] at hsz
    omega

/-- Witness of `C10_serializeStates`: capacity 4 after `setDefaultIndex()`, a buffer of five
characters. -/
theorem C10_serializeStates_witness :
    (cString ((construct 4 true true).setDefaultIndex.serializeStates
      (List.replicate 5 'x') 5)).length = min (construct 4 true true).setDefaultIndex.def_size (5 - 1) ∧
    (∀ i, i < min (construct 4 true true).setDefaultIndex.def_size (5 - 1) →
      (cString ((construct 4 true true).setDefaultIndex.serializeStates
        (List.replicate 5 'x') 5)).getD i nul =
        if (construct 4 true true).setDefaultIndex.getState i then '1' else '0') ∧
    (((construct 4 true true).setDefaultIndex.serializeStates (List.replicate 5 'x') 5).getD
        (min (construct 4 true true).setDefaultIndex.def_size (5 - 1)) '0' = nul ∧
      min (construct 4 true true).setDefaultIndex.def_size (5 - 1) < 5) ∧
    ((construct 4 true true).setDefaultIndex.serializeStatesSize ≤ 5 →
      (cString ((construct 4 true true).setDefaultIndex.serializeStates
        (List.replicate 5 'x') 5)).length = (construct 4 true true).setDefaultIndex.def_size) ∧
    String.mk (cString ((construct 4 true true).setDefaultIndex.serializeStates
      (List.replicate 5 'x') 5)) = "1000" :=
  C10_serializeStates (construct 4 true true).setDefaultIndex
    ⟨Or.inr ⟨[true, false, false, false], [false, false, false, false], by decide, by decide,
      by decide, by decide, by decide, by decide⟩, by decide, by decide⟩
    (by decide) (List.replicate 5 'x') 5 (by decide) (by decide)

/-! ## Termination of the range loop -/

/-- The loop of `setRangeStates` ends when its bound is below 255 (the 8-bit counter then
never wraps) and the fuel covers the remaining iterations. -/
theorem rangeLoop_isSome (state : Bool) (stop fuel i : Nat) (st : List Bool × Int)
    (hstop : stop < 255) (hfuel : i ≤ stop → stop + 2 - i ≤ fuel) (h1 : 1 ≤ fuel) :
    (rangeLoop state stop fuel i st).isSome = true := by
  induction fuel generalizing i st with
  | zero => omega
  | succ fuel ih =>
    unfold rangeLoop
    by_cases hi : i ≤ stop
    · rw [if_pos hi, Nat.mod_eq_of_lt (by omega)]
      have := hfuel hi
      exact ih (i + 1) _ (fun _ => by omega) (by omega)
    · rw [if_neg hi]
      rfl

/-- On a well-formed tracker `setRangeStates` terminates: 256 units of fuel suffice for every
`start`, `end` and value. -/
theorem setRangeStatesFuel_isSome (s : StateControl) (hs : WF s) (start stop : Nat)
    (state : Bool) : (setRangeStatesFuel 256 s start stop state).isSome = true := by
  unfold setRangeStatesFuel
  cases ha : s.array with
  | none => rfl
  | some arr =>
    have hle := hs.def_size_le
    by_cases hst : start ≥ s.def_size
    · simp only [hst, if_true, Option.isSome_some]
    · simp only [hst, if_false]
      cases hb : s.resetArray.array with
      | none => rfl
      | some arr1 =>
        have hbound : toUInt8 (arduinoMin (stop : Int) ((s.def_size : Int) - 1)) < 255 := by
          unfold toUInt8 arduinoMin
          split_ifs <;> omega
        have hsome := rangeLoop_isSome state
          (toUInt8 (arduinoMin (stop : Int) ((s.def_size : Int) - 1))) 256 start
          (arr1, s.resetArray.trueIndex) hbound (fun _ => by omega) (by omega)
        obtain ⟨r, hr⟩ := Option.isSome_iff_exists.mp hsome
        simp only [hr, Option.isSome_some]

/-! ## Indices above 127, continued -/

/-- C11 (defect in the code). With capacity 4 and only flag 2 true, `getFirstTrueIndex()`
returns 2; with capacity 254 and only flag 200 true it returns -56 instead of 200: the
result is an `int8_t`. -/
theorem C11_firstTrueIndex_index_200 :
    ((construct 4 true true).setState 2 true).getFirstTrueIndex = 2 ∧
    ((construct 254 true true).setState 200 true).flags =
      List.replicate 200 false ++ [true] ++ List.replicate 53 false ∧
    ((construct 254 true true).setState 200 true).getFirstTrueIndex = -56 ∧
    ((construct 254 true true).setState 200 true).getFirstTrueIndex ≠ 200 := by
  decide

/-- C14 (defect in the code). On capacity 254, `setState(200, true, true)` followed by
`setState(200, false, true)` leaves `getState(200)` false, but `getIndex()` is -56 and not
-1: the stored `int8_t` index -56 does not compare equal to 200. On capacity 4 with index 2
the same two calls leave `getIndex() == -1`. -/
theorem C14_setValue_false_index_200 :
    (((construct 254 true true).setStateValue 200 true true).setStateValue 200 false true).getState
      200 = false ∧
    (((construct 254 true true).setStateValue 200 true true).setStateValue 200 false true).getIndex
      = -56 ∧
    (((construct 254 true true).setStateValue 200 true true).setStateValue 200 false true).getIndex
      ≠ -1 ∧
    (((construct 4 true true).setStateValue 2 true true).setStateValue 2 false true).getIndex
      = -1 := by
  decide

/-- C15 (defect in the code). On capacity 254, the non-exclusive `setState(200, false)` sets
flag 200, leaves every other flag and the snapshot as they were and raises the count from 0
to 1, but `getIndex()` becomes -56 instead of 200. -/
theorem C15_setState_nonexclusive_index_200 :
    (construct 254 true true).isValidIndex 200 = true ∧
    ((construct 254 true true).setState 200 false).flags =
      (construct 254 true true).flags.set 200 true ∧
    ((construct 254 true true).setState 200 false).savedState =
      (construct 254 true true).savedState ∧
    ((construct 254 true true).setState 200 false).savedTrueIndex =
      (construct 254 true true).savedTrueIndex ∧
    (construct 254 true true).countTrueStates = 0 ∧
    ((construct 254 true true).setState 200 false).countTrueStates = 1 ∧
    ((construct 254 true true).setState 200 false).getIndex = -56 ∧
    ((construct 254 true true).setState 200 false).getIndex ≠ 200 := by
  decide

/-! ## The lookup `array[trueIndex]` of `invertStates` -/

/-- C17 (defect in the code). Capacity 254, all flags set, flag 200 cleared, then
`invertStates()`: flag 200 is the only true flag, the flag at the previous current index 0
is now false, yet `getIndex()` is -56 and not the first true index 200. And on a fresh
tracker of capacity 3, where `trueIndex` is -1, the lookup `array[trueIndex]` lies outside
the array: all flags become true, and `getIndex()` is 0 when the cell read there is zero
but stays -1 when it is not. -/
theorem C17_invertStates_index :
    ((((construct 254 true true).setAllStates true).setStateValue 200 false true).invertStates
      false).flags = List.replicate 200 false ++ [true] ++ List.replicate 53 false ∧
    (((construct 254 true true).setAllStates true).setStateValue 200 false true).getIndex = 0 ∧
    ((((construct 254 true true).setAllStates true).setStateValue 200 false true).invertStates
      false).getIndex = -56 ∧
    ((construct 3 true true).invertStates false).flags = [true, true, true] ∧
    ((construct 3 true true).invertStates false).getIndex = 0 ∧
    ((construct 3 true true).invertStates true).flags = [true, true, true] ∧
    ((construct 3 true true).invertStates true).getIndex = -1 := by
  decide

/-- C19 (defect in the code). A freshly constructed tracker of capacity 3 is reachable, and
`invertStates()` on it accesses `array` at the indices 0, 1, 2 and then -1: the lookup
`array[trueIndex]` is outside `[0, 3)`, and the outcome depends on the cell read there. -/
theorem C19_invertStates_lookup_out_of_bounds :
    Reachable (construct 3 true true) ∧
    (construct 3 true true).invertStatesAccesses = [0, 1, 2, -1] ∧
    ¬ (∀ idx ∈ (construct 3 true true).invertStatesAccesses,
        0 ≤ idx ∧ idx < ((construct 3 true true).def_size : Int)) ∧
    (construct 3 true true).invertStates true ≠ (construct 3 true true).invertStates false :=
  ⟨Reachable.init 3 true true, by decide, by decide, by decide⟩

/-! ## Invalid indices -/

/-- C13. For every tracker state and every index that is not valid (the tracker is disabled,
or `index >= def_size`): `isValidIndex(index)` is false, both `setState` overloads and
`toggleState` return the state unchanged (flags, current index and snapshot), and
`getState(index)` is false. `isValidIndex(j)` is true exactly when the tracker is enabled
and `j < def_size`. -/
theorem C13_invalid_index_noop (s : StateControl) (index : Nat)
    (h : s.array = none ∨ s.def_size ≤ index) :
    s.isValidIndex index = false ∧
    (∀ e, s.setState index e = s) ∧
    (∀ v e, s.setStateValue index v e = s) ∧
    s.toggleState index = s ∧
    s.getState index = false ∧
    (∀ j, s.isValidIndex j = true ↔ (s.array.isSome = true ∧ j < s.def_size)) := by
  have hv : s.isValidIndex index = false := by
    unfold isValidIndex
    rcases h with h | h
    · rw [h]; rfl
    · have : ¬ index < s.def_size := by omega
      simp only [this, decide_False, Bool.and_false]
  refine ⟨hv, ?_, ?_, ?_, ?_, ?_⟩
  · intro e
    simp only [setState, hv, Bool.not_false, if_true]
  · intro v e
    simp only [setStateValue, hv, Bool.not_false, if_true]
  · simp only [toggleState, hv, Bool.not_false, if_true]
  · simp only [getState, hv, Bool.false_eq_true, if_false]
  · intro j
    simp only [isValidIndex, Bool.and_eq_true, decide_eq_true_eq]

/-- Witness of `C13_invalid_index_noop`: index 3 on capacity 3. -/
theorem C13_invalid_index_noop_witness :
    (construct 3 true true).isValidIndex 3 = false ∧
    (∀ e, (construct 3 true true).setState 3 e = construct 3 true true) ∧
    (∀ v e, (construct 3 true true).setStateValue 3 v e = construct 3 true true) ∧
    (construct 3 true true).toggleState 3 = construct 3 true true ∧
    (construct 3 true true).getState 3 = false ∧
    (∀ j, (construct 3 true true).isValidIndex j = true ↔
      ((construct 3 true true).array.isSome = true ∧ j < (construct 3 true true).def_size)) :=
  C13_invalid_index_noop (construct 3 true true) 3 (Or.inr (by decide))

/-! ## Single-index calls on a valid index -/

/-- A valid index on a well-formed tracker: the array is live and the index is inside it. -/
theorem WF.valid_index {s : StateControl} (hs : WF s) {index : Nat}
    (hv : s.isValidIndex index = true) :
    ∃ arr, s.array = some arr ∧ index < s.def_size ∧ arr.length = s.def_size := by
  unfold isValidIndex at hv
  rw [Bool.and_eq_true, decide_eq_true_eq] at hv
  obtain ⟨arr, ha⟩ := Option.isSome_iff_exists.mp hv.1
  exact ⟨arr, ha, hv.2, hs.array_length ha⟩

theorem getD_set_self (a : List Bool) (i : Nat) (v : Bool) (h : i < a.length) :
    (a.set i v).getD i false = v := by
  rw [getD_set_eq_ite]
  simp only [h, and_self, if_true]

theorem getD_set_other (a : List Bool) (i j : Nat) (v : Bool) (h : j ≠ i) :
    (a.set i v).getD j false = a.getD j false := by
  rw [getD_set_eq_ite]
  have : ¬ (i = j ∧ j < a.length) := fun hh => h hh.1.symm
  simp only [this, if_false]

/-- The two cases of `toggleState` on a valid index. With the flag false it yields exactly
the state that `setState(index, true)` yields; with the flag true it sets only that flag to
false, leaves every other flag and the snapshot unchanged, and resets `getIndex()` to -1
only when the stored `int8_t` value equals `index`, which no index above 127 can satisfy. -/
theorem toggleState_cases (s : StateControl) (hs : WF s) (index : Nat)
    (hv : s.isValidIndex index = true) :
    (s.getState index = false → s.toggleState index = s.setState index true) ∧
    (s.getState index = true →
      (s.toggleState index).flags = s.flags.set index false ∧
      (s.toggleState index).getState index = false ∧
      (∀ j, j ≠ index → (s.toggleState index).getState j = s.getState j) ∧
      (s.toggleState index).getIndex = (if s.getIndex = (index : Int) then -1 else s.getIndex) ∧
      (s.toggleState index).savedState = s.savedState ∧
      (s.toggleState index).savedTrueIndex = s.savedTrueIndex) := by
  obtain ⟨arr, ha, hlt, hlen⟩ := hs.valid_index hv
  have hget : s.getState index = arr.getD index false := by
    simp only [getState, hv, if_true, ha]
  constructor
  · intro hf
    rw [hget] at hf
    have h1 : (arr.set index (!arr.getD index false)).getD index false = true := by
      rw [getD_set_self _ _ _ (by omega), hf]; rfl
    simp only [toggleState, setState, hv, Bool.not_true, Bool.false_eq_true, if_false, ha, h1,
      if_true]
    rw [hf]
    rfl
  · intro ht
    rw [hget] at ht
    have h1 : (arr.set index (!arr.getD index false)).getD index false = false := by
      rw [getD_set_self _ _ _ (by omega), ht]; rfl
    have htog : s.toggleState index =
        { s with array := some (arr.set index false),
                 trueIndex := if (index : Int) = s.trueIndex then -1 else s.trueIndex } := by
      simp only [toggleState, hv, Bool.not_true, Bool.false_eq_true, if_false, ha, h1]
      rw [ht]
      by_cases hi : (index : Int) = s.trueIndex
      · simp only [hi, if_true, Bool.not_true]
      · simp only [hi, if_false, Bool.not_true]
    rw [htog]
    refine ⟨?_, ?_, ?_, ?_, rfl, rfl⟩
    · simp only [flags, ha, Option.getD_some]
    · simp only [getState, isValidIndex, Option.isSome_some, Bool.true_and, hlt, decide_True,
        if_true]
      exact getD_set_self _ _ _ (by omega)
    · intro j hj
      simp only [getState, isValidIndex, Option.isSome_some, Bool.true_and, ha,
        getD_set_other _ _ _ _ hj]
    · simp only [getIndex]
      by_cases hi : (index : Int) = s.trueIndex
      · rw [if_pos hi, if_pos hi.symm]
      · rw [if_neg hi, if_neg (fun h => hi h.symm)]

/-- C16 (defect in the code). On capacity 254, `toggleState(200)` on the fresh tracker gives
exactly the state of `setState(200, true)`, with flag 200 true. A second `toggleState(200)`
clears that flag and leaves no flag true, but `getIndex()` stays -56 instead of becoming -1:
the stored `int8_t` index -56 of the flag just toggled does not compare equal to 200. On
capacity 4 with index 2 the same two calls leave `getIndex() == -1`. -/
theorem C16_toggleState_index_200 :
    (construct 254 true true).isValidIndex 200 = true ∧
    (construct 254 true true).getState 200 = false ∧
    (construct 254 true true).toggleState 200 = (construct 254 true true).setState 200 true ∧
    ((construct 254 true true).toggleState 200).getState 200 = true ∧
    ((construct 254 true true).toggleState 200).getIndex = -56 ∧
    (((construct 254 true true).toggleState 200).toggleState 200).getState 200 = false ∧
    (((construct 254 true true).toggleState 200).toggleState 200).countTrueStates = 0 ∧
    (((construct 254 true true).toggleState 200).toggleState 200).getIndex = -56 ∧
    (((construct 254 true true).toggleState 200).toggleState 200).getIndex ≠ -1 ∧
    (((construct 4 true true).toggleState 2).toggleState 2).getIndex = -1 := by
  decide

/-! ## Scanning for a flag -/

theorem toInt8_ne_neg_one (i : Nat) (h : i < 255) : toInt8 (i : Int) ≠ -1 := by
  unfold toInt8
  omega

/-- The scanning loop returns -1 exactly when no scanned cell holds the value looked for,
as long as the scan stays below index 255. -/
theorem scanLoop_eq_neg_one_iff (arr : List Bool) (state : Bool) (k n : Nat)
    (h : k + n ≤ 255) :
    scanLoop arr state k n = -1 ↔ ∀ j, k ≤ j → j < k + n → arr.getD j false ≠ state := by
  induction n generalizing k with
  | zero =>
    simp only [scanLoop, true_iff]
    intro j h1 h2
    omega
  | succ n ih =>
    unfold scanLoop
    by_cases hk : arr.getD k false = state
    · rw [if_pos hk]
      constructor
      · intro h1
        exact absurd h1 (toInt8_ne_neg_one k (by omega))
      · intro h1
        exact absurd hk (h1 k (le_refl k) (by omega))
    · rw [if_neg hk, ih (k + 1) (by omega)]
      constructor
      · intro h1 j hj1 hj2
        by_cases hjk : j = k
        · rw [hjk]; exact hk
        · exact h1 j (by omega) (by omega)
      · intro h1 j hj1 hj2
        exact h1 j (by omega) (by omega)

theorem getState_eq_true_iff (s : StateControl) (arr : List Bool) (ha : s.array = some arr)
    (i : Nat) : s.getState i = true ↔ (i < s.def_size ∧ arr.getD i false = true) := by
  unfold getState isValidIndex
  rw [ha]
  by_cases hi : i < s.def_size
  · simp only [hi, decide_True, Option.isSome_some, Bool.and_self, if_true, true_and]
  · simp only [hi, decide_False, Option.isSome_some, Bool.and_false, Bool.false_eq_true,
      if_false, false_and]

/-- C12. For every well-formed tracker (capacity 1..254, or disabled), `isAssignedIndex()`
is true if and only if at least one flag is true, equivalently `countTrueStates() > 0`. -/
theorem C12_isAssignedIndex (s : StateControl) (hs : WF s) :
    (s.isAssignedIndex = true ↔ ∃ i, s.getState i = true) ∧
    (s.isAssignedIndex = true ↔ 0 < s.countTrueStates) := by
  cases ha : s.array with
  | none =>
    have h1 : s.isAssignedIndex = false := by
      simp only [isAssignedIndex, getFirstTrueIndex, ha, ne_eq, not_true_eq_false, decide_False]
    have h2 : s.countTrueStates = 0 := by simp only [countTrueStates, ha]
    have h3 : ∀ i, s.getState i = false := by
      intro i
      simp only [getState, isValidIndex, ha, Option.isSome_none, Bool.false_and,
        Bool.false_eq_true, if_false]
    rw [h1, h2]
    refine ⟨⟨fun h => absurd h (by decide), ?_⟩, ⟨fun h => absurd h (by decide), fun h => by omega⟩⟩
    rintro ⟨i, hi⟩
    rw [h3 i] at hi
    exact hi
  | some arr =>
    have hle := hs.def_size_le
    have hassigned : s.isAssignedIndex = true ↔
        ∃ i, i < s.def_size ∧ arr.getD i false = true := by
      simp only [isAssignedIndex, getFirstTrueIndex, ha, decide_eq_true_eq, ne_eq]
      rw [scanLoop_eq_neg_one_iff arr true 0 s.def_size (by omega)]
      constructor
      · intro h
        by_contra hne
        apply h
        intro j _ hj2 hj3
        exact hne ⟨j, by omega, hj3⟩
      · rintro ⟨i, hi1, hi2⟩ h
        exact h i (Nat.zero_le i) (by omega) hi2
    constructor
    · rw [hassigned]
      constructor
      · rintro ⟨i, hi⟩
        exact ⟨i, (getState_eq_true_iff s arr ha i).mpr hi⟩
      · rintro ⟨i, hi⟩
        exact ⟨i, (getState_eq_true_iff s arr ha i).mp hi⟩
    · rw [hassigned, countTrueStates_eq s hs arr ha, List.length_pos_iff_exists_mem]
      constructor
      · rintro ⟨i, hi1, hi2⟩
        refine ⟨i, ?_⟩
        rw [List.mem_filter, List.mem_range'_1]
        exact ⟨⟨Nat.zero_le i, by omega⟩, hi2⟩
      · rintro ⟨i, hi⟩
        rw [List.mem_filter, List.mem_range'_1] at hi
        exact ⟨i, by omega, hi.2⟩

/-- Witness of `C12_isAssignedIndex`: capacity 3 with flag 1 set. -/
theorem C12_isAssignedIndex_witness :
    (((construct 3 true true).setState 1 true).isAssignedIndex = true ↔
      ∃ i, ((construct 3 true true).setState 1 true).getState i = true) ∧
    (((construct 3 true true).setState 1 true).isAssignedIndex = true ↔
      0 < ((construct 3 true true).setState 1 true).countTrueStates) :=
  C12_isAssignedIndex ((construct 3 true true).setState 1 true)
    ⟨Or.inr ⟨[false, true, false], [false, false, false], by decide, by decide, by decide,
      by decide, by decide, by decide⟩, by decide, by decide⟩

/-! ## Termination and bounds of `setRangeStates` -/

theorem forLoop_append_mem (k n : Nat) (acc : List Nat) (x : Nat)
    (h : x ∈ forLoop (fun i acc => acc ++ [i]) k n acc) : x ∈ acc ∨ (k ≤ x ∧ x < k + n) := by
  induction n generalizing k acc with
  | zero => exact Or.inl h
  | succ n ih =>
    rw [forLoop_succ] at h
    rcases ih (k + 1) (acc ++ [k]) h with h1 | h1
    · rw [List.mem_append, List.mem_singleton] at h1
      rcases h1 with h2 | h2
      · exact Or.inl h2
      · exact Or.inr (by omega)
    · exact Or.inr (by omega)

/-- The recording loop ends under the same conditions as `rangeLoop`, and every round it
records runs with the counter between its start and the bound. -/
theorem rangeLoopWrites_spec (stop fuel i : Nat) (w : List Nat)
    (hstop : stop < 255) (hfuel : i ≤ stop → stop + 2 - i ≤ fuel) (h1 : 1 ≤ fuel) :
    ∃ w1, rangeLoopWrites stop fuel i w = some w1 ∧
      ∀ x ∈ w1, x ∈ w ∨ (i ≤ x ∧ x ≤ stop) := by
  induction fuel generalizing i w with
  | zero => omega
  | succ fuel ih =>
    unfold rangeLoopWrites
    by_cases hi : i ≤ stop
    · rw [if_pos hi, Nat.mod_eq_of_lt (by omega)]
      have := hfuel hi
      obtain ⟨w1, hw1, hmem⟩ := ih (i + 1) (w ++ [i]) (fun _ => by omega) (by omega)
      refine ⟨w1, hw1, fun x hx => ?_⟩
      rcases hmem x hx with h2 | h2
      · rw [List.mem_append, List.mem_singleton] at h2
        rcases h2 with h3 | h3
        · exact Or.inl h3
        · exact Or.inr (by omega)
      · exact Or.inr (by omega)
    · rw [if_neg hi]
      exact ⟨w, rfl, fun x hx => Or.inl hx⟩

/-- The two loops share their control: one ends exactly when the other does. -/
theorem rangeLoop_isSome_eq_writes (state : Bool) (stop fuel i : Nat) (st : List Bool × Int)
    (w : List Nat) :
    (rangeLoop state stop fuel i st).isSome = (rangeLoopWrites stop fuel i w).isSome := by
  induction fuel generalizing i st w with
  | zero => rfl
  | succ fuel ih =>
    unfold rangeLoop rangeLoopWrites
    by_cases hi : i ≤ stop
    · rw [if_pos hi, if_pos hi]
      exact ih _ _ _
    · rw [if_neg hi, if_neg hi]
      rfl

/-- C20. On every well-formed tracker (capacity 1..254, or disabled) and for every `start`,
`end` and value (in particular `end == 255` and `start > end`), `setRangeStates` terminates
within 256 rounds of its loop; every index it writes lies in `[0, def_size)`, and every
round of the range loop runs with the counter below 255, so the 8-bit increment never
wraps. -/
theorem C20_setRangeStates_terminates (s : StateControl) (hs : WF s) (start stop : Nat)
    (state : Bool) :
    (setRangeStatesFuel 256 s start stop state).isSome = true ∧
    ∃ w, setRangeStatesWrites 256 s start stop = some w ∧
      ∀ i ∈ w, i < s.def_size ∧ i < 255 := by
  refine ⟨setRangeStatesFuel_isSome s hs start stop state, ?_⟩
  unfold setRangeStatesWrites
  cases ha : s.array with
  | none => exact ⟨[], rfl, fun i hi => absurd hi (List.not_mem_nil i)⟩
  | some arr =>
    have hle := hs.def_size_le
    by_cases hst : start ≥ s.def_size
    · simp only [hst, if_true]
      exact ⟨[], rfl, fun i hi => absurd hi (List.not_mem_nil i)⟩
    · simp only [hst, if_false]
      have hbound : toUInt8 (arduinoMin (stop : Int) ((s.def_size : Int) - 1)) <
          s.def_size := by
        unfold toUInt8 arduinoMin
        split_ifs <;> omega
      obtain ⟨w1, hw1, hmem⟩ := rangeLoopWrites_spec
        (toUInt8 (arduinoMin (stop : Int) ((s.def_size : Int) - 1))) 256 start
        (forLoop (fun i acc => acc ++ [i]) 0 s.def_size []) (by omega) (fun _ => by omega)
        (by omega)
      refine ⟨w1, hw1, fun i hi => ?_⟩
      rcases hmem i hi with h1 | h1
      · rcases forLoop_append_mem 0 s.def_size [] i h1 with h2 | h2
        · exact absurd h2 (List.not_mem_nil i)
        · omega
      · omega

/-- Witness of `C20_setRangeStates_terminates`: capacity 5, `start = 1`, `end = 255`. -/
theorem C20_setRangeStates_terminates_witness :
    (setRangeStatesFuel 256 (construct 5 true true) 1 255 true).isSome = true ∧
    ∃ w, setRangeStatesWrites 256 (construct 5 true true) 1 255 = some w ∧
      ∀ i ∈ w, i < (construct 5 true true).def_size ∧ i < 255 :=
  C20_setRangeStates_terminates (construct 5 true true) (construct_WF 5 true true) 1 255 true

/-! ## The cached index is never stale -/

theorem toInt8_range (n : Int) : -128 ≤ toInt8 n ∧ toInt8 n ≤ 127 := by
  unfold toInt8
  omega

/-- An `int8_t` obtained from an 8-bit index is non-negative only if it is that index. -/
theorem toInt8_eq_nat (k i : Nat) (hk : k < 256) (h : toInt8 (k : Int) = (i : Int)) :
    i = k := by
  unfold toInt8 at h
  omega

theorem set_getD_same {α : Type} (a : List α) (i : Nat) (d : α) :
    a.set i (a.getD i d) = a := by
  apply list_ext_getD d
  · simp
  · intro j _
    rw [getD_set_eq_ite]
    by_cases h : i = j ∧ j < a.length
    · rw [if_pos h, h.1]
    · rw [if_neg h]

/-- The loop of `clearOthers`: cell `j` of the result. -/
theorem clearLoop_getD (index n : Nat) (a : List Bool) (j : Nat) :
    (forLoop (fun i a => if i ≠ index then a.set i false else a) 0 n a).getD j false =
      if j ≠ index ∧ j < n then false else a.getD j false := by
  rw [forLoop_getD false (fun i b => if i ≠ index then false else b)]
  · by_cases hj : j ≠ index
    · by_cases hn : j < n
      · by_cases hl : j < a.length
        · have h1 : 0 ≤ j ∧ j < 0 + n ∧ j < a.length := by omega
          simp only [h1, and_self, if_true, hj, ne_eq, not_false_eq_true, hn]
        · have h1 : ¬ (0 ≤ j ∧ j < 0 + n ∧ j < a.length) := by omega
          have h2 : a.getD j false = false := by
            rw [List.getD_eq_getElem?_getD, List.getElem?_eq_none (by omega)]
            rfl
          simp only [h1, if_false, hj, ne_eq, not_false_eq_true, hn, and_self, if_true, h2]
      · have h1 : ¬ (0 ≤ j ∧ j < 0 + n ∧ j < a.length) := by omega
        simp only [h1, if_false, hn, and_false]
    · simp only [hj, false_and, if_false, ite_self]
  · intro i a
    by_cases hi : i ≠ index
    · simp only [hi, ne_eq, not_false_eq_true, if_true]
    · simp only [hi, if_false, set_getD_same]

theorem clearLoop_length (index n : Nat) (a : List Bool) :
    (forLoop (fun i a => if i ≠ index then a.set i false else a) 0 n a).length = a.length :=
  forLoop_length _ (clearOthers_body_length index) 0 n a

/-- The state after a call of `clearOthers` on an enabled tracker. -/
theorem clearOthers_eq (s : StateControl) (arr : List Bool) (ha : s.array = some arr)
    (hne : s.def_size ≠ 0) (index : Nat) :
    s.clearOthers index =
      { s with array := some (forLoop (fun i a => if i ≠ index then a.set i false else a)
                                0 s.def_size arr) } := by
  simp only [clearOthers, ha, hne, if_false]

/-- The state after `setState(index, exclusive)` on a valid index. -/
theorem setState_eq (s : StateControl) (arr : List Bool) (ha : s.array = some arr)
    (index : Nat) (hv : s.isValidIndex index = true) (exclusive : Bool) :
    s.setState index exclusive =
      { s with
        array := some (if exclusive then
            forLoop (fun i a => if i ≠ index then a.set i false else a) 0 s.def_size
              (arr.set index true)
          else arr.set index true),
        trueIndex := toInt8 index } := by
  have hlt : index < s.def_size := by
    unfold isValidIndex at hv
    rw [Bool.and_eq_true, decide_eq_true_eq] at hv
    exact hv.2
  have hne : s.def_size ≠ 0 := by omega
  cases exclusive
  · simp only [setState, hv, Bool.not_true, Bool.false_eq_true, if_false, ha]
  · simp only [setState, hv, Bool.not_true, Bool.false_eq_true, if_false, ha, if_true,
      clearOthers, hne]

/-- Reading a flag of an explicit enabled state. -/
theorem getState_mk (arr : List Bool) (n : Nat) (ti : Int) (sv : Option (List Bool))
    (sti : Int) (i : Nat) (hi : i < n) :
    getState { array := some arr, def_size := n, trueIndex := ti, savedState := sv,
               savedTrueIndex := sti } i = arr.getD i false := by
  simp only [getState, isValidIndex, Option.isSome_some, Bool.true_and, hi, decide_True, if_true]

theorem setState_cur (s : StateControl) (hs : WF s) (index : Nat) (exclusive : Bool) 
    (hn : ∀ i : Nat, s.trueIndex = (i : Int) → i < s.def_size → s.getState i = true) :
    (-128 ≤ (s.setState index exclusive).trueIndex ∧
      (s.setState index exclusive).trueIndex ≤ 127) ∧
    ∀ i : Nat, (s.setState index exclusive).trueIndex = (i : Int) →
      i < (s.setState index exclusive).def_size →
      (s.setState index exclusive).getState i = true := by
  cases hv : s.isValidIndex index with
  | false =>
    have h : s.setState index exclusive = s := by
      simp only [setState, hv, Bool.not_false, if_true]
    rw [h]
    exact ⟨hs.2.1, hn⟩
  | true =>
    obtain ⟨arr, ha, hlt, hlen⟩ := hs.valid_index hv
    have hle := hs.def_size_le
    rw [setState_eq s arr ha index hv exclusive]
    refine ⟨toInt8_range _, ?_⟩
    intro i hi hin
    have hik : i = index := toInt8_eq_nat index i (by omega) hi
    subst hik
    rw [getState_mk _ _ _ _ _ _ hin]
    cases exclusive
    · simp only [Bool.false_eq_true, if_false]
      exact getD_set_self _ _ _ (by omega)
    · simp only [if_true]
      rw [clearLoop_getD]
      simp only [ne_eq, not_true_eq_false, false_and, if_false]
      exact getD_set_self _ _ _ (by omega)

/-- Clearing one flag and dropping the cached index when it is that flag keeps the cached
index fresh. -/
theorem clearFlag_cur (s : StateControl) (hs : WF s) (arr : List Bool)
    (ha : s.array = some arr) (index : Nat)
    (hn : ∀ i : Nat, s.trueIndex = (i : Int) → i < s.def_size → s.getState i = true) :
    (-128 ≤ (if (index : Int) = s.trueIndex then -1 else s.trueIndex) ∧
      (if (index : Int) = s.trueIndex then -1 else s.trueIndex) ≤ 127) ∧
    ∀ i : Nat, (if (index : Int) = s.trueIndex then -1 else s.trueIndex) = (i : Int) →
      i < s.def_size → (arr.set index false).getD i false = true := by
  have hr := hs.2.1
  constructor
  · split_ifs <;> omega
  · intro i hi hin
    by_cases hc : (index : Int) = s.trueIndex
    · rw [if_pos hc] at hi
      omega
    · rw [if_neg hc] at hi
      have hne : i ≠ index := by
        intro h
        apply hc
        rw [hi, h]
      rw [getD_set_other _ _ _ _ hne]
      have := hn i hi hin
      rw [getState_eq_true_iff s arr ha] at this
      exact this.2

theorem setStateValue_true_eq (s : StateControl) (index : Nat) (exclusive : Bool) :
    s.setStateValue index true exclusive = s.setState index exclusive := by
  unfold setStateValue setState
  cases hv : s.isValidIndex index
  · rfl
  · cases ha : s.array with
    | none => rfl
    | some arr => cases exclusive <;> rfl

theorem setStateValue_false_eq (s : StateControl) (arr : List Bool) (ha : s.array = some arr)
    (index : Nat) (hv : s.isValidIndex index = true) (exclusive : Bool) :
    s.setStateValue index false exclusive =
      { s with array := some (arr.set index false),
               trueIndex := if (index : Int) = s.trueIndex then -1 else s.trueIndex } := by
  simp only [setStateValue, hv, Bool.not_true, Bool.false_eq_true, if_false, ha]
  by_cases hi : (index : Int) = s.trueIndex
  · simp only [hi, if_true]
  · simp only [hi, if_false]

theorem setStateValue_cur (s : StateControl) (hs : WF s) (index : Nat) (state exclusive : Bool)
    (hn : ∀ i : Nat, s.trueIndex = (i : Int) → i < s.def_size → s.getState i = true) :
    (-128 ≤ (s.setStateValue index state exclusive).trueIndex ∧
      (s.setStateValue index state exclusive).trueIndex ≤ 127) ∧
    ∀ i : Nat, (s.setStateValue index state exclusive).trueIndex = (i : Int) →
      i < (s.setStateValue index state exclusive).def_size →
      (s.setStateValue index state exclusive).getState i = true := by
  cases state with
  | true =>
    rw [setStateValue_true_eq]
    exact setState_cur s hs index exclusive hn
  | false =>
    cases hv : s.isValidIndex index with
    | false =>
      have h : s.setStateValue index false exclusive = s := by
        simp only [setStateValue, hv, Bool.not_false, if_true]
      rw [h]
      exact ⟨hs.2.1, hn⟩
    | true =>
      obtain ⟨arr, ha, hlt, hlen⟩ := hs.valid_index hv
      rw [setStateValue_false_eq s arr ha index hv exclusive]
      obtain ⟨h1, h2⟩ := clearFlag_cur s hs arr ha index hn
      refine ⟨h1, fun i hi hin => ?_⟩
      rw [getState_mk _ _ _ _ _ _ hin]
      exact h2 i hi hin

theorem toggleState_eq_of_false (s : StateControl) (arr : List Bool) (ha : s.array = some arr)
    (index : Nat) (hv : s.isValidIndex index = true) (hlen : index < arr.length)
    (hf : arr.getD index false = false) :
    s.toggleState index = s.setState index true := by
  have h1 : (arr.set index (!arr.getD index false)).getD index false = true := by
    rw [getD_set_self _ _ _ hlen, hf]; rfl
  simp only [toggleState, setState, hv, Bool.not_true, Bool.false_eq_true, if_false, ha, h1,
    if_true]
  rw [hf]
  rfl

theorem toggleState_eq_of_true (s : StateControl) (arr : List Bool) (ha : s.array = some arr)
    (index : Nat) (hv : s.isValidIndex index = true) (hlen : index < arr.length)
    (ht : arr.getD index false = true) :
    s.toggleState index =
      { s with array := some (arr.set index false),
               trueIndex := if (index : Int) = s.trueIndex then -1 else s.trueIndex } := by
  have h1 : (arr.set index (!arr.getD index false)).getD index false = false := by
    rw [getD_set_self _ _ _ hlen, ht]; rfl
  simp only [toggleState, hv, Bool.not_true, Bool.false_eq_true, if_false, ha, h1]
  rw [ht]
  by_cases hi : (index : Int) = s.trueIndex
  · simp only [hi, if_true, Bool.not_true]
  · simp only [hi, if_false, Bool.not_true]

theorem toggleState_cur (s : StateControl) (hs : WF s) (index : Nat)
    (hn : ∀ i : Nat, s.trueIndex = (i : Int) → i < s.def_size → s.getState i = true) :
    (-128 ≤ (s.toggleState index).trueIndex ∧ (s.toggleState index).trueIndex ≤ 127) ∧
    ∀ i : Nat, (s.toggleState index).trueIndex = (i : Int) →
      i < (s.toggleState index).def_size → (s.toggleState index).getState i = true := by
  cases hv : s.isValidIndex index with
  | false =>
    have h : s.toggleState index = s := by
      simp only [toggleState, hv, Bool.not_false, if_true]
    rw [h]
    exact ⟨hs.2.1, hn⟩
  | true =>
    obtain ⟨arr, ha, hlt, hlen⟩ := hs.valid_index hv
    cases hb : arr.getD index false with
    | false =>
      rw [toggleState_eq_of_false s arr ha index hv (by omega) hb]
      exact setState_cur s hs index true hn
    | true =>
      rw [toggleState_eq_of_true s arr ha index hv (by omega) hb]
      obtain ⟨h1, h2⟩ := clearFlag_cur s hs arr ha index hn
      refine ⟨h1, fun i hi hin => ?_⟩
      rw [getState_mk _ _ _ _ _ _ hin]
      exact h2 i hi hin

theorem resetArray_cur (s : StateControl) (hs : WF s)
    (hn : ∀ i : Nat, s.trueIndex = (i : Int) → i < s.def_size → s.getState i = true) :
    (-128 ≤ s.resetArray.trueIndex ∧ s.resetArray.trueIndex ≤ 127) ∧
    ∀ i : Nat, s.resetArray.trueIndex = (i : Int) → i < s.resetArray.def_size →
      s.resetArray.getState i = true := by
  unfold resetArray
  cases ha : s.array with
  | none => exact ⟨hs.2.1, hn⟩
  | some arr =>
    by_cases hd : s.def_size = 0
    · simp only [hd, if_true]
      exact ⟨hs.2.1, fun i _ hi => by omega⟩
    · simp only [hd, if_false]
      exact ⟨⟨by omega, by omega⟩, fun i hi _ => by omega⟩

theorem setAllStates_cur (s : StateControl) (hs : WF s) (state : Bool)
    (hn : ∀ i : Nat, s.trueIndex = (i : Int) → i < s.def_size → s.getState i = true) :
    (-128 ≤ (s.setAllStates state).trueIndex ∧ (s.setAllStates state).trueIndex ≤ 127) ∧
    ∀ i : Nat, (s.setAllStates state).trueIndex = (i : Int) →
      i < (s.setAllStates state).def_size → (s.setAllStates state).getState i = true := by
  unfold setAllStates
  cases ha : s.array with
  | none => exact ⟨hs.2.1, hn⟩
  | some arr =>
    have hlen := hs.array_length ha
    by_cases hd : s.def_size = 0
    · simp only [hd, if_true]
      exact ⟨hs.2.1, fun i _ hi => by omega⟩
    · simp only [hd, if_false]
      cases state with
      | false => exact ⟨⟨by decide, by decide⟩, fun i hi _ => by simp at hi⟩
      | true =>
        refine ⟨⟨by decide, by decide⟩, fun i hi hin => ?_⟩
        simp only [if_true] at hi
        have hi0 : i = 0 := by omega
        subst hi0
        rw [getState_mk _ _ _ _ _ _ hin,
          forLoop_getD false (fun _ _ => true) _ (fun i a => rfl)]
        have h1 : 0 ≤ 0 ∧ 0 < 0 + s.def_size ∧ 0 < arr.length := by omega
        simp only [h1, and_self, if_true]

theorem setDefaultIndex_cur (s : StateControl) (hs : WF s)
    (hn : ∀ i : Nat, s.trueIndex = (i : Int) → i < s.def_size → s.getState i = true) :
    (-128 ≤ s.setDefaultIndex.trueIndex ∧ s.setDefaultIndex.trueIndex ≤ 127) ∧
    ∀ i : Nat, s.setDefaultIndex.trueIndex = (i : Int) → i < s.setDefaultIndex.def_size →
      s.setDefaultIndex.getState i = true := by
  unfold setDefaultIndex
  cases ha : s.array with
  | none => exact ⟨hs.2.1, hn⟩
  | some arr =>
    have hlen := hs.array_length ha
    by_cases hd : s.def_size = 0
    · simp only [hd, if_true]
      exact ⟨hs.2.1, fun i _ hi => by omega⟩
    · simp only [hd, if_false]
      refine ⟨⟨by decide, by decide⟩, fun i hi hin => ?_⟩
      have hi0 : i = 0 := by omega
      subst hi0
      rw [getState_mk _ _ _ _ _ _ hin,
        forLoop_getD false (fun i _ => decide (i = 0)) _ (fun i a => rfl)]
      have h1 : 0 ≤ 0 ∧ 0 < 0 + s.def_size ∧ 0 < arr.length := by omega
      simp only [h1, and_self, if_true, decide_True]

theorem scanLoop_range (arr : List Bool) (state : Bool) (k n : Nat) :
    -128 ≤ scanLoop arr state k n ∧ scanLoop arr state k n ≤ 127 := by
  induction n generalizing k with
  | zero =>
    unfold scanLoop
    omega
  | succ n ih =>
    unfold scanLoop
    split_ifs
    · exact toInt8_range _
    · exact ih (k + 1)

/-- A non-negative result of the scanning loop is the index of a cell that holds the value
looked for. -/
theorem scanLoop_eq_nat (arr : List Bool) (state : Bool) (k n i : Nat) (h : k + n ≤ 256)
    (hr : scanLoop arr state k n = (i : Int)) : arr.getD i false = state := by
  induction n generalizing k with
  | zero =>
    unfold scanLoop at hr
    omega
  | succ n ih =>
    unfold scanLoop at hr
    by_cases hk : arr.getD k false = state
    · rw [if_pos hk] at hr
      have := toInt8_eq_nat k i (by omega) hr
      rw [this]
      exact hk
    · rw [if_neg hk] at hr
      exact ih (k + 1) (by omega) hr

theorem invertStates_cur (s : StateControl) (hs : WF s) (oob : Bool)
    (hn : ∀ i : Nat, s.trueIndex = (i : Int) → i < s.def_size → s.getState i = true) :
    (-128 ≤ (s.invertStates oob).trueIndex ∧ (s.invertStates oob).trueIndex ≤ 127) ∧
    ∀ i : Nat, (s.invertStates oob).trueIndex = (i : Int) →
      i < (s.invertStates oob).def_size → (s.invertStates oob).getState i = true := by
  unfold invertStates
  cases ha : s.array with
  | none => exact ⟨hs.2.1, hn⟩
  | some arr =>
    have hlen := hs.array_length ha
    have hle := hs.def_size_le
    by_cases hd : s.def_size = 0
    · simp only [hd, if_true]
      exact ⟨hs.2.1, fun i _ hi => by omega⟩
    · simp only [hd, if_false, findState]
      have hl1 : (forLoop (fun i a => a.set i (!a.getD i false)) 0 s.def_size arr).length =
          s.def_size := by
        rw [forLoop_length _ (fun i a => by simp), hlen]
      by_cases hread : readAt (forLoop (fun i a => a.set i (!a.getD i false)) 0 s.def_size arr)
          oob s.trueIndex = true
      · simp only [hread, if_true]
        refine ⟨hs.2.1, fun i hi hin => ?_⟩
        rw [getState_mk _ _ _ _ _ _ hin]
        unfold readAt at hread
        rw [hi, hl1] at hread
        have hb : (0 : Int) ≤ (i : Int) ∧ (i : Int) < (s.def_size : Int) := by omega
        rw [if_pos hb, Int.toNat_ofNat] at hread
        exact hread
      · simp only [hread, Bool.false_eq_true, if_false]
        refine ⟨scanLoop_range _ _ _ _, fun i hi hin => ?_⟩
        rw [getState_mk _ _ _ _ _ _ hin]
        exact scanLoop_eq_nat _ true 0 s.def_size i (by omega) hi

/-- Invariant of the range loop: the cached index is an `int8_t`, it stays -1 when the range
is being cleared, and when it is an index below `n` the flag there is true. -/
theorem rangeLoop_cur (state : Bool) (stop n fuel i : Nat) (st r : List Bool × Int)
    (hstop : stop < n) (hn : n ≤ 254) (hlen : n ≤ st.1.length)
    (h : rangeLoop state stop fuel i st = some r)
    (hrange : -128 ≤ st.2 ∧ st.2 ≤ 127)
    (hclear : state = false → st.2 = -1)
    (hfresh : ∀ j : Nat, st.2 = (j : Int) → j < n → st.1.getD j false = true) :
    (-128 ≤ r.2 ∧ r.2 ≤ 127) ∧
    ∀ j : Nat, r.2 = (j : Int) → j < n → r.1.getD j false = true := by
  induction fuel generalizing i st with
  | zero => simp [rangeLoop] at h
  | succ fuel ih =>
    unfold rangeLoop at h
    by_cases hi : i ≤ stop
    · rw [if_pos hi] at h
      refine ih _ _ ?_ h ?_ ?_ ?_
      · rw [List.length_set]; exact hlen
      · dsimp only
        split_ifs
        · exact toInt8_range _
        · exact hrange
      · intro hf
        dsimp only
        rw [hf]
        exact hclear hf
      · intro j hj hjn
        dsimp only at hj ⊢
        cases state with
        | false =>
          have := hclear rfl
          simp only [Bool.false_and, Bool.false_eq_true, if_false] at hj
          omega
        | true =>
          by_cases hji : j = i
          · rw [hji]
            exact getD_set_self _ _ _ (by omega)
          · rw [getD_set_other _ _ _ _ hji]
            by_cases hneg : st.2 = -1
            · simp only [hneg, Bool.true_and, decide_True, if_true] at hj
              exact absurd (toInt8_eq_nat i j (by omega) hj) hji
            · simp only [hneg, Bool.true_and, decide_False, Bool.false_eq_true, if_false] at hj
              exact hfresh j hj hjn
    · rw [if_neg hi] at h
      cases h
      exact ⟨hrange, hfresh⟩

theorem resetArray_eq (s : StateControl) (arr : List Bool) (ha : s.array = some arr)
    (hd : s.def_size ≠ 0) :
    s.resetArray = { s with array := some (forLoop (fun i a => a.set i false) 0 s.def_size arr),
                            trueIndex := -1 } := by
  simp only [resetArray, ha, hd, if_false]

theorem setRangeStates_cur (s : StateControl) (hs : WF s) (start stop : Nat) (state : Bool)
    (hn : ∀ i : Nat, s.trueIndex = (i : Int) → i < s.def_size → s.getState i = true) :
    (-128 ≤ (s.setRangeStates start stop state).trueIndex ∧
      (s.setRangeStates start stop state).trueIndex ≤ 127) ∧
    ∀ i : Nat, (s.setRangeStates start stop state).trueIndex = (i : Int) →
      i < (s.setRangeStates start stop state).def_size →
      (s.setRangeStates start stop state).getState i = true := by
  unfold setRangeStates
  cases hfuel : setRangeStatesFuel 256 s start stop state with
  | none => exact ⟨hs.2.1, hn⟩
  | some t =>
    rw [Option.getD_some]
    unfold setRangeStatesFuel at hfuel
    cases ha : s.array with
    | none =>
      simp only [ha, Option.some.injEq] at hfuel
      rw [← hfuel]
      exact ⟨hs.2.1, hn⟩
    | some arr =>
      have hlen := hs.array_length ha
      have hle := hs.def_size_le
      simp only [ha] at hfuel
      by_cases hst : start ≥ s.def_size
      · simp only [hst, if_true, Option.some.injEq] at hfuel
        rw [← hfuel]
        exact ⟨hs.2.1, hn⟩
      · have hd : s.def_size ≠ 0 := by omega
        simp only [hst, if_false, resetArray_eq s arr ha hd] at hfuel
        have hbound : toUInt8 (arduinoMin (stop : Int) ((s.def_size : Int) - 1)) <
            s.def_size := by
          unfold toUInt8 arduinoMin
          split_ifs <;> omega
        cases hl : rangeLoop state (toUInt8 (arduinoMin (stop : Int) ((s.def_size : Int) - 1)))
            256 start (forLoop (fun i a => a.set i false) 0 s.def_size arr, -1) with
        | none => simp [hl] at hfuel
        | some r =>
          simp only [hl, Option.some.injEq] at hfuel
          obtain ⟨h1, h2⟩ := rangeLoop_cur state _ s.def_size 256 start _ r hbound hle
            (by rw [forLoop_length _ (fun i a => by simp)]; omega) hl
            ⟨by norm_num, by norm_num⟩ (fun _ => rfl) (fun j hj _ => by simp at hj)
          rw [← hfuel]
          refine ⟨h1, fun i hi hin => ?_⟩
          rw [getState_mk _ _ _ _ _ _ hin]
          exact h2 i hi hin

theorem saveState_eq (s : StateControl) (hs : WF s) (arr : List Bool)
    (ha : s.array = some arr) :
    s.saveState = { s with savedState := some arr, savedTrueIndex := s.trueIndex } := by
  obtain ⟨saved, hsv⟩ := hs.saved_of_array ha
  have hlen := hs.array_length ha
  have hslen := hs.saved_length hsv
  have hpos := hs.def_size_pos ha
  have hne : s.def_size ≠ 0 := by omega
  simp only [saveState, ha, hsv, hne, if_false, forLoop_copy arr saved s.def_size hslen hlen]

theorem restoreSavedState_eq (s : StateControl) (hs : WF s) (arr saved : List Bool)
    (ha : s.array = some arr) (hsv : s.savedState = some saved) :
    s.restoreSavedState = { s with array := some saved, trueIndex := s.savedTrueIndex } := by
  have hlen := hs.array_length ha
  have hslen := hs.saved_length hsv
  have hpos := hs.def_size_pos ha
  have hne : s.def_size ≠ 0 := by omega
  simp only [restoreSavedState, ha, hsv, hne, if_false,
    forLoop_copy saved arr s.def_size hlen hslen]

theorem restoreSavedState_cur (s : StateControl) (hs : WF s) (hn : NotStale s) :
    (-128 ≤ s.restoreSavedState.trueIndex ∧ s.restoreSavedState.trueIndex ≤ 127) ∧
    ∀ i : Nat, s.restoreSavedState.trueIndex = (i : Int) → i < s.restoreSavedState.def_size →
      s.restoreSavedState.getState i = true := by
  cases ha : s.array with
  | none =>
    have h : s.restoreSavedState = s := by simp only [restoreSavedState, ha]
    rw [h]
    exact ⟨hs.2.1, hn.1⟩
  | some arr =>
    obtain ⟨saved, hsv⟩ := hs.saved_of_array ha
    rw [restoreSavedState_eq s hs arr saved ha hsv]
    refine ⟨hs.2.2, fun i hi hin => ?_⟩
    rw [getState_mk _ _ _ _ _ _ hin]
    have := hn.2 i hi hin
    rw [hsv, Option.getD_some] at this
    exact this

theorem copyStatesFrom_cur (s source : StateControl) (hs : WF s) (hn : NotStale s)
    (hsrc : WF source) (hnsrc : NotStale source) :
    (-128 ≤ (s.copyStatesFrom source).1.trueIndex ∧
      (s.copyStatesFrom source).1.trueIndex ≤ 127) ∧
    ∀ i : Nat, (s.copyStatesFrom source).1.trueIndex = (i : Int) →
      i < (s.copyStatesFrom source).1.def_size →
      (s.copyStatesFrom source).1.getState i = true := by
  cases ha : s.array with
  | none =>
    have h : (s.copyStatesFrom source).1 = s := by simp only [copyStatesFrom, ha]
    rw [h]
    exact ⟨hs.2.1, hn.1⟩
  | some arr =>
    cases hb : source.array with
    | none =>
      have h : (s.copyStatesFrom source).1 = s := by simp only [copyStatesFrom, ha, hb]
      rw [h]
      exact ⟨hs.2.1, hn.1⟩
    | some src =>
      by_cases hd : s.def_size = source.def_size
      · have hcopy : forLoop (fun i a => a.set i (src.getD i false)) 0 source.def_size arr
            = src :=
          forLoop_copy src arr source.def_size (by rw [hs.array_length ha, hd])
            (hsrc.array_length hb)
        have h : (s.copyStatesFrom source).1 =
            { s with array := some src, trueIndex := source.trueIndex } := by
          simp only [copyStatesFrom, ha, hb, hd, ne_eq, not_true_eq_false, if_false, hcopy]
        rw [h]
        refine ⟨hsrc.2.1, fun i hi hin => ?_⟩
        rw [getState_mk _ _ _ _ _ _ hin]
        have := hnsrc.1 i hi (by rw [← hd]; exact hin)
        rw [getState_eq_true_iff source src hb] at this
        exact this.2
      · have h : (s.copyStatesFrom source).1 = s := by
          simp only [copyStatesFrom, ha, hb, ne_eq, hd, not_false_eq_true, if_true]
        rw [h]
        exact ⟨hs.2.1, hn.1⟩

/-- A call that keeps the frame and leaves a fresh `int8_t` index keeps the tracker
well-formed and not stale. -/
theorem inv_of_frame (s t : StateControl) (hs : WF s) (hn : NotStale s) (hf : SameFrame s t)
    (hcur : (-128 ≤ t.trueIndex ∧ t.trueIndex ≤ 127) ∧
      ∀ i : Nat, t.trueIndex = (i : Int) → i < t.def_size → t.getState i = true) :
    WF t ∧ NotStale t := by
  obtain ⟨f1, f2, f3, f4⟩ := hf
  refine ⟨⟨?_, hcur.1, by rw [f2]; exact hs.2.2⟩, hcur.2, ?_⟩
  · rcases hs.1 with ⟨h1, h2, h3⟩ | ⟨arr, saved, h1, h2, h3, h4, h5, h6⟩
    · left
      rw [h1, Option.map_none', Option.map_eq_none'] at f4
      exact ⟨f4, by rw [f1, h2], by rw [f3, h3]⟩
    · right
      rw [h1, Option.map_some', Option.map_eq_some'] at f4
      obtain ⟨arrT, hT, hlenT⟩ := f4
      exact ⟨arrT, saved, hT, by rw [f1, h2], by rw [hlenT, f3, h3], by rw [f3, h4],
        by rw [f3]; exact h5, by rw [f3]; exact h6⟩
  · intro i hi hin
    rw [f1]
    rw [f2] at hi
    rw [f3] at hin
    exact hn.2 i hi hin

theorem saveState_inv (s : StateControl) (hs : WF s) (hn : NotStale s) :
    WF s.saveState ∧ NotStale s.saveState := by
  cases ha : s.array with
  | none =>
    have h : s.saveState = s := by simp only [saveState, ha]
    rw [h]
    exact ⟨hs, hn⟩
  | some arr =>
    rw [saveState_eq s hs arr ha]
    have hlen := hs.array_length ha
    have hpos := hs.def_size_pos ha
    have hle := hs.def_size_le
    refine ⟨⟨Or.inr ⟨arr, arr, ha, rfl, hlen, hlen, hpos, hle⟩, hs.2.1, hs.2.1⟩, ?_, ?_⟩
    · intro i hi hin
      have := hn.1 i hi hin
      rw [getState_eq_true_iff s arr ha] at this
      exact (getState_eq_true_iff { s with savedState := some arr, savedTrueIndex := s.trueIndex }
        arr ha i).mpr this
    · intro i hi hin
      have := hn.1 i hi hin
      rw [getState_eq_true_iff s arr ha] at this
      exact this.2

/-- Every call keeps the tracker well-formed and not stale, given that the source of a
`copyStatesFrom` is so. -/
theorem step_inv (s : StateControl) (op : Op) (hs : WF s) (hn : NotStale s)
    (hsrc : ∀ source, op = Op.copyFrom source → WF source ∧ NotStale source) :
    WF (step s op) ∧ NotStale (step s op) := by
  cases op with
  | setTrue index exclusive =>
    exact inv_of_frame s _ hs hn (setState_frame s index exclusive)
      (setState_cur s hs index exclusive hn.1)
  | setValue index state exclusive =>
    exact inv_of_frame s _ hs hn (setStateValue_frame s index state exclusive)
      (setStateValue_cur s hs index state exclusive hn.1)
  | toggle index =>
    exact inv_of_frame s _ hs hn (toggleState_frame s index) (toggleState_cur s hs index hn.1)
  | resetAll => exact inv_of_frame s _ hs hn (resetArray_frame s) (resetArray_cur s hs hn.1)
  | setAll state =>
    exact inv_of_frame s _ hs hn (setAllStates_frame s state) (setAllStates_cur s hs state hn.1)
  | setDefault =>
    exact inv_of_frame s _ hs hn (setDefaultIndex_frame s) (setDefaultIndex_cur s hs hn.1)
  | setRange start stop state =>
    exact inv_of_frame s _ hs hn (setRangeStates_frame s start stop state)
      (setRangeStates_cur s hs start stop state hn.1)
  | invertAll oob =>
    exact inv_of_frame s _ hs hn (invertStates_frame s oob) (invertStates_cur s hs oob hn.1)
  | save => exact saveState_inv s hs hn
  | restore =>
    exact inv_of_frame s _ hs hn (restoreSavedState_frame s) (restoreSavedState_cur s hs hn)
  | copyFrom source =>
    obtain ⟨h1, h2⟩ := hsrc source rfl
    exact inv_of_frame s _ hs hn (copyStatesFrom_frame s source)
      (copyStatesFrom_cur s source hs hn h1 h2)

theorem construct_notStale (c : Int) (allocArray allocSaved : Bool) :
    NotStale (construct c allocArray allocSaved) := by
  rcases construct_cases c allocArray allocSaved with h | ⟨n, _, _, h⟩
  · rw [h]
    exact ⟨fun i hi _ => by simp at hi, fun i hi _ => by simp at hi⟩
  · rw [h]
    exact ⟨fun i hi _ => by simp at hi, fun i hi _ => by simp at hi⟩

/-- Every reachable state is well-formed and not stale. -/
theorem reachable_inv (s : StateControl) (h : Reachable s) : WF s ∧ NotStale s := by
  induction h with
  | init n a1 a2 => exact ⟨construct_WF n a1 a2, construct_notStale n a1 a2⟩
  | call s op _ _ ih ihsrc => exact step_inv s op ih.1 ih.2 ihsrc

/-- C18. In every state reachable from construction by the public calls (the sources of
`copyStatesFrom` being reachable too), whenever `getIndex()` lies in `[0, def_size)` the flag
at that index is true, `getState(getIndex()) == true`; and likewise whenever the saved index
lies in `[0, def_size)` the saved flag at that index is true. -/
theorem C18_currentIndex_never_stale (s : StateControl) (h : Reachable s) :
    (∀ i : Nat, s.getIndex = (i : Int) → i < s.def_size → s.getState i = true) ∧
    (∀ i : Nat, s.savedTrueIndex = (i : Int) → i < s.def_size →
      (s.savedState.getD []).getD i false = true) :=
  (reachable_inv s h).2

/-- Witness of `C18_currentIndex_never_stale`: capacity 3 after `setState(1, true)` and
`saveState()`. -/
theorem C18_currentIndex_never_stale_witness :
    (∀ i : Nat, (step (step (construct 3 true true) (Op.setTrue 1 true)) Op.save).getIndex
        = (i : Int) →
      i < (step (step (construct 3 true true) (Op.setTrue 1 true)) Op.save).def_size →
      (step (step (construct 3 true true) (Op.setTrue 1 true)) Op.save).getState i = true) ∧
    (∀ i : Nat, (step (step (construct 3 true true) (Op.setTrue 1 true)) Op.save).savedTrueIndex
        = (i : Int) →
      i < (step (step (construct 3 true true) (Op.setTrue 1 true)) Op.save).def_size →
      ((step (step (construct 3 true true) (Op.setTrue 1 true)) Op.save).savedState.getD
        []).getD i false = true) :=
  C18_currentIndex_never_stale (step (step (construct 3 true true) (Op.setTrue 1 true)) Op.save)
    (Reachable.call _ Op.save
      (Reachable.call _ (Op.setTrue 1 true) (Reachable.init 3 true true)
        (fun _ h => Op.noConfusion h))
      (fun _ h => Op.noConfusion h))

end StateControl
